import Mathlib

/-!
# flutter_creator: a model of `main.go` and its checked properties

The program is sequential glue over the file system, an embedded template
tree and two external tools.  The model makes that world explicit:

* a `World` is the file system (a map from cleaned paths to nodes) together
  with the log (`trace`) of the operations performed so far and their outcome;
* an `Env` holds what the program reads but never changes: the arguments, the
  standard input, the home directory, the platform identifier, the embedded
  template, the behaviour of external commands, and an oracle `fault` that
  makes the n-th operation fail for a reason outside the file-system model
  (permissions, I/O errors, a full disk);
* every function of `main.go` is a function from a world to a result and a
  new world.

What is not modelled: text printed to standard output, symbolic links and
hard links (each path names its own node), case-insensitive file systems,
the umask, and partial effects of a file-system call that fails.
-/

namespace FlutterCreator

/-! ## Values -/

/-- File contents. -/
abbrev Bytes := List Nat

/-- Errors the program can see. -/
inductive Err where
  /-- ENOENT: the only error `os.IsNotExist` recognises. -/
  | notExist
  /-- ENOTDIR: a component used as a directory is a regular file. -/
  | notDir
  /-- EISDIR. -/
  | isDir
  /-- Any failure whose cause is outside the model (EACCES, EIO, ENOSPC). -/
  | osFault
  /-- End of input before the delimiter (`io.EOF`). -/
  | eof
  /-- An external command that could not be started or exited non-zero. -/
  | exitStatus (code : Nat)
  /-- Value of `fmt.Errorf("unsupported OS: %s", runtime.GOOS)`. -/
  | unsupportedOS (goos : String)
  /-- Value of `filepath.Rel` when no relative path exists. -/
  | cannotRel
  /-- Value of `fmt.Errorf(msg + ": %v", cause)`. -/
  | wrapped (msg : String) (cause : Err)
  deriving DecidableEq, Repr

/-- A cleaned path: whether it is rooted, and its elements.  A relative path
may start with `..` elements; `⟨false, []⟩` is `.` and `⟨true, []⟩` is `/`. -/
structure Path where
  abs : Bool
  elems : List String
  deriving DecidableEq, Repr

/-- A node of the file system; a directory remembers the mode that was asked
for when it was created (the umask, which may clear bits of it, is not
modelled). -/
inductive Node where
  | file (data : Bytes)
  | dir (perm : Nat)
  deriving DecidableEq, Repr

/-- The file system. -/
abbrev FS := Path → Option Node

mutual
/-- A node of the embedded, read-only template (`embed.FS`). -/
inductive Tree where
  | file (data : Bytes)
  | dir (entries : Entries)
/-- The entries of an embedded directory, in the order `ReadDir` lists them. -/
inductive Entries where
  | nil
  | cons (name : String) (node : Tree) (rest : Entries)
end

/-- An external command: `exec.Command(argv[0], argv[1:]...)` with `cmd.Dir`. -/
structure Cmd where
  argv : List String
  dir : Option Path
  deriving DecidableEq, Repr

/-- The operations the program performs. -/
inductive Op where
  /-- The check `len(os.Args) < 2`. -/
  | args
  /-- The call `reader.ReadString` on standard input. -/
  | readString
  /-- The call `os.UserHomeDir`. -/
  | userHomeDir
  /-- The switch on `runtime.GOOS`. -/
  | goos
  | stat (p : Path)
  | mkdirAll (p : Path) (perm : Nat)
  | removeAll (p : Path)
  /-- The call `cmd.Run`. -/
  | run (c : Cmd)
  /-- The call `fs.Stat` on the root of the walk. -/
  | embedStat (name : List String)
  /-- The call `templateFS.Open`. -/
  | embedOpen (name : List String)
  /-- The deferred `src.Close`. -/
  | embedClose (name : List String)
  /-- The call `templateFS.ReadFile`. -/
  | embedReadFile (name : List String)
  /-- The call `os.Create`. -/
  | create (p : Path)
  /-- The call `io.Copy` into the file created at `p`. -/
  | copy (p : Path)
  /-- The deferred `dst.Close`. -/
  | close (p : Path)
  | writeFile (p : Path)
  deriving DecidableEq, Repr

/-- One logged operation and whether it returned without error. -/
structure Event where
  op : Op
  ok : Bool
  deriving DecidableEq, Repr

/-- The mutable world. -/
structure World where
  fs : FS
  trace : List Event

/-- What the program reads and never changes. -/
structure Env where
  /-- The value of `os.Args`. -/
  args : List String
  /-- The bytes waiting on standard input. -/
  stdin : String
  /-- The result of `os.UserHomeDir`. -/
  home : Except Err String
  /-- The value of `runtime.GOOS`. -/
  goos : String
  /-- The embedded file system `templateFS`. -/
  templateFS : Tree
  /-- What running an external command does to the file system, and its error. -/
  run : Cmd → FS → Option Err × FS
  /-- Whether the operation logged at position `n` fails for an outside reason. -/
  fault : Nat → Bool

/-- Append one event to the log. -/
def World.log (w : World) (op : Op) (ok : Bool) : World :=
  { fs := w.fs, trace := w.trace ++ [⟨op, ok⟩] }

/-- Whether the next operation is made to fail by the oracle. -/
def Env.faultNow (env : Env) (w : World) : Bool :=
  env.fault w.trace.length

/-! ## Strings and paths -/

/-- The predicate `unicode.IsSpace`. -/
def isSpace (c : Char) : Bool :=
  let n := c.toNat
  (9 ≤ n && n ≤ 13) || n == 32 || n == 0x85 || n == 0xA0 || n == 0x1680 ||
    (0x2000 ≤ n && n ≤ 0x200A) || n == 0x2028 || n == 0x2029 || n == 0x202F ||
    n == 0x205F || n == 0x3000

/-- The function `strings.TrimSpace`: drops leading and trailing white space. -/
def trimSpace (s : String) : String :=
  String.mk ((s.data.dropWhile isSpace).reverse.dropWhile isSpace).reverse

/-- The call `reader.ReadString(delim)` on fresh input: the text up to and
including the first delimiter; `io.EOF` when the input ends before one. -/
def readString (delim : Char) : List Char → List Char × Option Err
  | [] => ([], some Err.eof)
  | c :: cs =>
    if c = delim then ([c], none)
    else ((readString delim cs).1.cons c, (readString delim cs).2)

/-- Drop one carriage return at the end of a line. -/
def dropCR : List Char → List Char
  | [] => []
  | [c] => if c = '\r' then [] else [c]
  | c :: d :: cs => c :: dropCR (d :: cs)

/-- The line the user typed, without its line terminator: the input up to
the first line feed, less a carriage return right before it. -/
def promptAnswer (stdin : String) : String :=
  String.mk (dropCR (stdin.data.takeWhile (fun c => c != '\n')))

/-- Split at every slash; the result is never empty. -/
def splitOnSlash : List Char → List (List Char)
  | [] => [[]]
  | c :: cs =>
    if c = '/' then [] :: splitOnSlash cs
    else
      match splitOnSlash cs with
      | [] => [[c]]
      | seg :: segs => (c :: seg) :: segs

/-- One step of `filepath.Clean` on the stack of elements kept so far (top
first): empty and `.` elements vanish, `..` removes the element before it,
stays in front of a relative path and vanishes at the root. -/
def cleanStep (abs : Bool) (stack : List String) (e : String) : List String :=
  if e = "" ∨ e = "." then stack
  else if e = ".." then
    match stack with
    | [] => if abs then [] else [".."]
    | top :: rest => if top = ".." then ".." :: top :: rest else rest
  else e :: stack

/-- The elements of the cleaned path. -/
def cleanElems (abs : Bool) (es : List String) : List String :=
  (es.foldl (cleanStep abs) []).reverse

/-- The function `filepath.Join` on strings: empty elements are ignored, the
rest is joined with slashes and cleaned.  (Go returns the empty string when
every element is empty; that is `.` here, and no call site can produce it.) -/
def filepathJoin (elem : List String) : Path :=
  let s := String.intercalate "/" (elem.filter (fun e => e ≠ ""))
  let abs := s.data.head? == some '/'
  { abs := abs, elems := cleanElems abs ((splitOnSlash s.data).map String.mk) }

/-- The function `filepath.Join(p, rel)` for a path already computed and a
relative path given by its elements. -/
def Path.join (p : Path) (rel : List String) : Path :=
  { abs := p.abs, elems := cleanElems p.abs (p.elems ++ rel) }

/-- The path as text, as it is passed to an external command. -/
def Path.toString (p : Path) : String :=
  if p.abs then "/" ++ String.intercalate "/" p.elems
  else if p.elems = [] then "." else String.intercalate "/" p.elems

/-- The proper ancestors of a path, outermost first. -/
def Path.parents (p : Path) : List Path :=
  (List.range p.elems.length).map (fun k => { abs := p.abs, elems := p.elems.take k })

/-- The directory holding the path; none for `.` and `/`. -/
def Path.parent? (p : Path) : Option Path :=
  if p.elems = [] then none else some { abs := p.abs, elems := p.elems.dropLast }

/-- Whether `xs` begins with `ys`. -/
def beginsWith : List String → List String → Bool
  | _, [] => true
  | [], _ :: _ => false
  | x :: xs, y :: ys => x == y && beginsWith xs ys

/-- Whether `q` is `p` or lies below it. -/
def Path.under (q p : Path) : Bool :=
  q.abs == p.abs && beginsWith q.elems p.elems

/-- Remove the common leading elements of two element lists. -/
def stripCommon : List String → List String → List String × List String
  | b :: bs, t :: ts => if b = t then stripCommon bs ts else (b :: bs, t :: ts)
  | [], ts => ([], ts)
  | bs, [] => (bs, [])

/-- The function `filepath.Rel` on two cleaned relative paths given by their
elements; the empty result is `.`. -/
def filepathRel (base targ : List String) : Except Err (List String) :=
  if (stripCommon base targ).1.head? = some ".." then Except.error Err.cannotRel
  else Except.ok ((stripCommon base targ).1.map (fun _ => "..") ++ (stripCommon base targ).2)

/-! ## The embedded template -/

/-- A name an embedded entry can have (`fs.ValidPath` on one element). -/
def validName (n : String) : Bool :=
  n != "" && n != "." && n != ".." && n.data.all (fun c => c != '/')

mutual
/-- The node at a slash path of the embedded file system. -/
def Tree.find? : Tree → List String → Option Tree
  | t, [] => some t
  | Tree.file _, _ :: _ => none
  | Tree.dir es, n :: rest => es.find? n rest
/-- The node below the entry called `n`. -/
def Entries.find? : Entries → String → List String → Option Tree
  | Entries.nil, _, _ => none
  | Entries.cons m t rest, n, p => if m = n then t.find? p else rest.find? n p
end

/-- Whether a directory has an entry of that name. -/
def Entries.hasName : Entries → String → Bool
  | Entries.nil, _ => false
  | Entries.cons m _ rest, n => m == n || rest.hasName n

mutual
/-- The invariant of an embedded tree: in every directory the names are
valid and pairwise different. -/
def Tree.WF : Tree → Bool
  | Tree.file _ => true
  | Tree.dir es => es.WF
/-- The same for a list of entries. -/
def Entries.WF : Entries → Bool
  | Entries.nil => true
  | Entries.cons n t rest => validName n && !rest.hasName n && t.WF && rest.WF
end

/-- Whether the node is a directory (`d.IsDir()`). -/
def Tree.isDir : Tree → Bool
  | Tree.file _ => false
  | Tree.dir _ => true

mutual
/-- The nodes of a tree in the order `fs.WalkDir` visits them, each with its
slash path; `name` is the path of the tree itself. -/
def Tree.walk (name : List String) : Tree → List (List String × Tree)
  | Tree.file d => [(name, Tree.file d)]
  | Tree.dir es => (name, Tree.dir es) :: es.walk name
/-- The visits below a directory called `name`. -/
def Entries.walk (name : List String) : Entries → List (List String × Tree)
  | Entries.nil => []
  | Entries.cons n t rest => t.walk (name ++ [n]) ++ rest.walk name
end

/-! ## File-system calls -/

/-- Whether the path holds a regular file. -/
def isFileAt (fs : FS) (p : Path) : Bool :=
  match fs p with
  | some (Node.file _) => true
  | _ => false

/-- Whether the path holds a directory. -/
def isDirAt (fs : FS) (p : Path) : Bool :=
  match fs p with
  | some (Node.dir _) => true
  | _ => false

/-- The file system with the node at `p` replaced. -/
def FS.set (fs : FS) (p : Path) (n : Node) : FS :=
  fun q => if q = p then some n else fs q

/-- What `stat` answers on the model: the node, ENOTDIR when an ancestor is a
regular file, ENOENT otherwise. -/
def statFS (fs : FS) (p : Path) : Except Err Node :=
  match fs p with
  | some n => Except.ok n
  | none =>
    if p.parents.any (isFileAt fs) then Except.error Err.notDir
    else Except.error Err.notExist

/-- The call `os.Stat`. -/
def osStat (env : Env) (p : Path) (w : World) : Except Err Node × World :=
  if env.faultNow w then (Except.error Err.osFault, w.log (Op.stat p) false)
  else
    match statFS w.fs p with
    | Except.ok n => (Except.ok n, w.log (Op.stat p) true)
    | Except.error e => (Except.error e, w.log (Op.stat p) false)

/-- The call `os.MkdirAll(p, perm)`: fails when `p` or an ancestor is a
regular file, otherwise creates every missing directory on the way to `p`. -/
def osMkdirAll (env : Env) (p : Path) (perm : Nat) (w : World) : Option Err × World :=
  if env.faultNow w then (some Err.osFault, w.log (Op.mkdirAll p perm) false)
  else if (p.parents ++ [p]).any (isFileAt w.fs) then
    (some Err.notDir, w.log (Op.mkdirAll p perm) false)
  else
    (none,
      { fs := fun q =>
          if q ∈ p.parents ++ [p] ∧ w.fs q = none then some (Node.dir perm) else w.fs q,
        trace := w.trace ++ [⟨Op.mkdirAll p perm, true⟩] })

/-- The call `os.RemoveAll(p)`: removes `p` and everything below it; a
missing path is no error, an ancestor that is a regular file is one. -/
def osRemoveAll (env : Env) (p : Path) (w : World) : Option Err × World :=
  if env.faultNow w then (some Err.osFault, w.log (Op.removeAll p) false)
  else if p.parents.any (isFileAt w.fs) then
    (some Err.notDir, w.log (Op.removeAll p) false)
  else
    (none,
      { fs := fun q => if q.under p then none else w.fs q,
        trace := w.trace ++ [⟨Op.removeAll p, true⟩] })

/-- The error of opening `p` for writing with creation and truncation. -/
def openForWrite (fs : FS) (p : Path) : Option Err :=
  match fs p with
  | some (Node.dir _) => some Err.isDir
  | some (Node.file _) => none
  | none =>
    match p.parent? with
    | none => some Err.isDir
    | some q =>
      match fs q with
      | some (Node.dir _) => none
      | some (Node.file _) => some Err.notDir
      | none => if p.parents.any (isFileAt fs) then some Err.notDir else some Err.notExist

/-- The call `os.Create(p)`: the file exists and is empty afterwards. -/
def osCreate (env : Env) (p : Path) (w : World) : Option Err × World :=
  if env.faultNow w then (some Err.osFault, w.log (Op.create p) false)
  else
    match openForWrite w.fs p with
    | some e => (some e, w.log (Op.create p) false)
    | none => (none, { fs := w.fs.set p (Node.file []), trace := w.trace ++ [⟨Op.create p, true⟩] })

/-- The call `io.Copy(dst, src)` where `dst` is the file just created at `p`
and `src` the embedded node opened before; reading a directory fails. -/
def ioCopy (env : Env) (p : Path) (src : Tree) (w : World) : Option Err × World :=
  if env.faultNow w then (some Err.osFault, w.log (Op.copy p) false)
  else
    match src with
    | Tree.dir _ => (some Err.isDir, w.log (Op.copy p) false)
    | Tree.file data =>
      (none, { fs := w.fs.set p (Node.file data), trace := w.trace ++ [⟨Op.copy p, true⟩] })

/-- The deferred `dst.Close()`; its error is dropped by the caller. -/
def closeDst (env : Env) (p : Path) (w : World) : World :=
  w.log (Op.close p) (!env.faultNow w)

/-- The deferred `src.Close()` of an embedded file, which cannot fail. -/
def closeSrc (name : List String) (w : World) : World :=
  w.log (Op.embedClose name) true

/-- The call `os.WriteFile(p, data, 0644)`. -/
def osWriteFile (env : Env) (p : Path) (data : Bytes) (w : World) : Option Err × World :=
  if env.faultNow w then (some Err.osFault, w.log (Op.writeFile p) false)
  else
    match openForWrite w.fs p with
    | some e => (some e, w.log (Op.writeFile p) false)
    | none =>
      (none, { fs := w.fs.set p (Node.file data), trace := w.trace ++ [⟨Op.writeFile p, true⟩] })

/-- The call `templateFS.Open(name)`. -/
def embedOpen (env : Env) (name : List String) (w : World) : Except Err Tree × World :=
  match env.templateFS.find? name with
  | some t => (Except.ok t, w.log (Op.embedOpen name) true)
  | none => (Except.error Err.notExist, w.log (Op.embedOpen name) false)

/-- The call `templateFS.ReadFile(name)`. -/
def embedReadFile (env : Env) (name : List String) (w : World) : Except Err Bytes × World :=
  match env.templateFS.find? name with
  | some (Tree.file data) => (Except.ok data, w.log (Op.embedReadFile name) true)
  | some (Tree.dir _) => (Except.error Err.isDir, w.log (Op.embedReadFile name) false)
  | none => (Except.error Err.notExist, w.log (Op.embedReadFile name) false)

/-- The call `cmd.Run()`: the command does to the file system whatever the
environment says, and fails or not. -/
def cmdRun (env : Env) (c : Cmd) (w : World) : Option Err × World :=
  ((env.run c w.fs).1,
    { fs := (env.run c w.fs).2, trace := w.trace ++ [⟨Op.run c, (env.run c w.fs).1.isNone⟩] })

/-- The callback type of `fs.WalkDir`: path, `d.IsDir()`, incoming error. -/
abbrev WalkDirFunc := List String → Bool → Option Err → World → Option Err × World

mutual
/-- The recursion of `fs.WalkDir`: visit the node, then its entries in order,
stopping at the first error.  (The callback of this program never returns
`fs.SkipDir`, and reading an embedded directory cannot fail.) -/
def walkDir (fn : WalkDirFunc) (name : List String) : Tree → World → Option Err × World
  | Tree.file _, w => fn name false none w
  | Tree.dir es, w =>
    match fn name true none w with
    | (some e, w1) => (some e, w1)
    | (none, w1) => walkDirEntries fn name es w1
/-- The loop over the entries of one directory. -/
def walkDirEntries (fn : WalkDirFunc) (name : List String) :
    Entries → World → Option Err × World
  | Entries.nil, w => (none, w)
  | Entries.cons n t rest, w =>
    match walkDir fn (name ++ [n]) t w with
    | (some e, w1) => (some e, w1)
    | (none, w1) => walkDirEntries fn name rest w1
end

/-- The call `fs.WalkDir(templateFS, root, fn)`. -/
def fsWalkDir (env : Env) (root : List String) (fn : WalkDirFunc) (w : World) :
    Option Err × World :=
  match env.templateFS.find? root with
  | none => fn root false (some Err.notExist) (w.log (Op.embedStat root) false)
  | some t => walkDir fn root t (w.log (Op.embedStat root) true)

/-! ## The functions of `main.go` -/

/-- Go: `createFlutterProjectAtPath`. -/
def createFlutterProjectAtPath (env : Env) (savePath : Path) (w : World) : Option Err × World :=
  cmdRun env { argv := ["flutter", "create", savePath.toString], dir := none } w

/-- The callback passed to `fs.WalkDir` by `copyTemplateStructure`. -/
def copyEntry (env : Env) (projectName : Path) : WalkDirFunc :=
  fun path isDir err w =>
    match err with
    | some e => (some e, w)
    | none =>
      match filepathRel ["flutter_base"] path with
      | Except.error e => (some e, w)
      | Except.ok relPath =>
        if isDir then osMkdirAll env (projectName.join relPath) 0o755 w
        else
          match embedOpen env path w with
          | (Except.error e, w1) => (some e, w1)
          | (Except.ok src, w1) =>
            match osCreate env (projectName.join relPath) w1 with
            | (some e, w2) => (some e, closeSrc path w2)
            | (none, w2) =>
              ((ioCopy env (projectName.join relPath) src w2).1,
                closeSrc path
                  (closeDst env (projectName.join relPath)
                    (ioCopy env (projectName.join relPath) src w2).2))

/-- Go: `copyTemplateStructure`. -/
def copyTemplateStructure (env : Env) (projectName : Path) (w : World) : Option Err × World :=
  fsWalkDir env ["flutter_base"] (copyEntry env projectName) w

/-- Go: `mergePubspec`. -/
def mergePubspec (env : Env) (projectName : Path) (w : World) : Option Err × World :=
  match embedReadFile env ["flutter_base", "pubspec.yaml"] w with
  | (Except.error e, w1) => (some e, w1)
  | (Except.ok templatePubspec, w1) =>
    match osWriteFile env (projectName.join ["pubspec.yaml"]) templatePubspec w1 with
    | (some e, w2) => (some e, w2)
    | (none, w2) => (none, w2)

/-- The commands of `initGit`. -/
def gitCmds : List (List String) :=
  [["git", "init"], ["git", "add", "."],
   ["git", "commit", "-m", "Initial commit: Flutter project structure"]]

/-- The loop of `initGit` over the remaining commands. -/
def runCmds (env : Env) (dir : Path) : List (List String) → World → Option Err × World
  | [], w => (none, w)
  | cmdArgs :: rest, w =>
    match cmdRun env { argv := cmdArgs, dir := some dir } w with
    | (some e, w1) => (some e, w1)
    | (none, w1) => runCmds env dir rest w1

/-- Go: `initGit`. -/
def initGit (env : Env) (projectName : Path) (w : World) : Option Err × World :=
  runCmds env projectName gitCmds w

/-- Go: `getDefaultSavePath`. -/
def getDefaultSavePath (env : Env) (projectName : String) (w : World) : Except Err Path × World :=
  match env.home with
  | Except.error e => (Except.error e, w.log Op.userHomeDir false)
  | Except.ok homeDir =>
    if env.goos = "windows" then
      (Except.ok (filepathJoin [homeDir, "Desktop", projectName]),
        (w.log Op.userHomeDir true).log Op.goos true)
    else if env.goos = "darwin" then
      (Except.ok (filepathJoin [homeDir, "Desktop", projectName]),
        (w.log Op.userHomeDir true).log Op.goos true)
    else if env.goos = "linux" then
      (Except.ok (filepathJoin [homeDir, "Desktop", projectName]),
        (w.log Op.userHomeDir true).log Op.goos true)
    else
      (Except.error (Err.unsupportedOS env.goos), (w.log Op.userHomeDir true).log Op.goos false)

/-- Go: `askForSavePath`.  The error of `ReadString` is dropped. -/
def askForSavePath (env : Env) (projectName : String) (w : World) : Except Err Path × World :=
  let userInput := trimSpace (String.mk (readString '\n' env.stdin.data).1)
  if userInput = "" ∨ userInput = "." then
    getDefaultSavePath env projectName
      (w.log Op.readString (readString '\n' env.stdin.data).2.isNone)
  else
    (Except.ok (filepathJoin [userInput, projectName]),
      w.log Op.readString (readString '\n' env.stdin.data).2.isNone)

/-- Go: `ensureDirectoryExists`. -/
def ensureDirectoryExists (env : Env) (path : Path) (w : World) : Option Err × World :=
  match osStat env path w with
  | (Except.error e, w1) =>
    if e = Err.notExist then
      match osMkdirAll env path 0o777 w1 with
      | (some e2, w2) => (some (Err.wrapped "failed to create directory" e2), w2)
      | (none, w2) => (none, w2)
    else (none, w1)
  | (Except.ok _, w1) => (none, w1)

/-- The exit code of the process and the world it leaves. -/
structure Outcome where
  code : Nat
  world : World

/-- The part of `main` after the arguments were checked. -/
def mainFrom (env : Env) (projectName : String) (w : World) : Outcome :=
  match askForSavePath env projectName w with
  | (Except.error _, w1) => ⟨1, w1⟩
  | (Except.ok savePath, w1) =>
    match ensureDirectoryExists env savePath w1 with
    | (some _, w2) => ⟨1, w2⟩
    | (none, w2) =>
      match createFlutterProjectAtPath env savePath w2 with
      | (some _, w3) => ⟨1, w3⟩
      | (none, w3) =>
        match osRemoveAll env (savePath.join ["lib"]) w3 with
        | (some _, w4) => ⟨1, w4⟩
        | (none, w4) =>
          match copyTemplateStructure env savePath w4 with
          | (some _, w5) => ⟨1, w5⟩
          | (none, w5) =>
            match mergePubspec env savePath w5 with
            | (some _, w6) => ⟨1, w6⟩
            | (none, w6) =>
              match initGit env savePath w6 with
              | (some _, w7) => ⟨1, w7⟩
              | (none, w7) => ⟨0, w7⟩

/-- Go: `main`, started on the file system `fs0`. -/
def main (env : Env) (fs0 : FS) : Outcome :=
  if env.args.length < 2 then ⟨1, World.log ⟨fs0, []⟩ Op.args false⟩
  else mainFrom env (env.args.getD 1 "") (World.log ⟨fs0, []⟩ Op.args true)

/-! ## Devices of the proofs -/

/-- The walk as a loop over the list of visits: the callback is applied to
each visit in order and the loop stops at the first error. -/
def runVisits (fn : WalkDirFunc) : List (List String × Tree) → World → Option Err × World
  | [], w => (none, w)
  | x :: rest, w =>
    match fn x.1 x.2.isDir none w with
    | (some e, w1) => (some e, w1)
    | (none, w1) => runVisits fn rest w1

/-- Every visit names a node of the template below the root of the walk. -/
def Visits (env : Env) (L : List (List String × Tree)) : Prop :=
  ∀ x ∈ L, ∃ r, x.1 = "flutter_base" :: r ∧ (∀ n ∈ r, validName n = true) ∧
    env.templateFS.find? x.1 = some x.2

/-- A failed operation whose error the program acts on.  The errors of
reading the prompt, of the existence check and of closing a file are the
ones the program never looks at or does not treat as fatal. -/
def Event.fatal (e : Event) : Bool :=
  !e.ok &&
    match e.op with
    | Op.readString => false
    | Op.stat _ => false
    | Op.close _ => false
    | Op.embedClose _ => false
    | _ => true

/-- A deferred close. -/
def Event.isClose (e : Event) : Bool :=
  match e.op with
  | Op.close _ => true
  | Op.embedClose _ => true
  | _ => false

/-- The shape of the events of a step: without failure none of them is
fatal; with failure exactly one is, and only deferred closes follow it. -/
def Halts (evs : List Event) : Bool → Prop
  | false => ∀ e ∈ evs, e.fatal = false
  | true => ∃ pre e post, evs = pre ++ e :: post ∧ (∀ x ∈ pre, x.fatal = false) ∧
      e.fatal = true ∧ ∀ x ∈ post, x.isClose = true

/-- The step from `w0` to `w` added events of that shape to the log. -/
def Ran (w0 w : World) (failed : Bool) : Prop :=
  ∃ evs, w.trace = w0.trace ++ evs ∧ Halts evs failed

deriving instance DecidableEq for Except

/-! ## Sample worlds -/

/-- A template with a source folder and a manifest. -/
def sampleTemplate : Tree :=
  Tree.dir (Entries.cons "flutter_base"
    (Tree.dir
      (Entries.cons "lib" (Tree.dir (Entries.cons "main.dart" (Tree.file [1, 2]) Entries.nil))
        (Entries.cons "pubspec.yaml" (Tree.file [7]) Entries.nil)))
    Entries.nil)

/-- A file system with a home directory and a directory `/tmp`. -/
def sampleFS : FS :=
  fun p =>
    if p = ⟨true, []⟩ ∨ p = ⟨true, ["home"]⟩ ∨ p = ⟨true, ["home", "u"]⟩ ∨ p = ⟨true, ["tmp"]⟩
    then some (Node.dir 0o755) else none

/-- External tools that succeed; the generator leaves a source folder with
a file of its own and a manifest of its own. -/
def sampleGenerator : Cmd → FS → Option Err × FS :=
  fun c fs =>
    if c.dir = none then
      (none,
        ((fs.set ⟨true, ["tmp", "app", "lib"]⟩ (Node.dir 0o755)).set
            ⟨true, ["tmp", "app", "lib", "old.dart"]⟩ (Node.file [5])).set
          ⟨true, ["tmp", "app", "pubspec.yaml"]⟩ (Node.file [8]))
    else (none, fs)

/-- A run that answers the prompt with a directory. -/
def sampleEnv : Env :=
  { args := ["flutter_creator", "app"], stdin := "/tmp\n", home := Except.ok "/home/u",
    goos := "linux", templateFS := sampleTemplate, run := sampleGenerator,
    fault := fun _ => false }

/-- The destination of the sample run. -/
def sampleDest : Path := ⟨true, ["tmp", "app"]⟩

/-- A run on `windows` that answers the prompt with Enter alone, sent as a
carriage return and a line feed. -/
def envDefault : Env :=
  { args := ["flutter_creator", "app"], stdin := "\r\n", home := Except.ok "/home/u",
    goos := "windows", templateFS := sampleTemplate, run := sampleGenerator,
    fault := fun _ => false }

/-- A run whose git commands fail at `git add .`. -/
def envGitAddFails : Env :=
  { args := ["flutter_creator", "app"], stdin := "/tmp\n", home := Except.ok "/home/u",
    goos := "linux", templateFS := sampleTemplate,
    run := fun c fs =>
      if c.argv = ["git", "add", "."] then (some (Err.exitStatus 128), fs) else (none, fs),
    fault := fun _ => false }

/-- A run whose answer starts with a blank, on a platform without default. -/
def envBlank : Env :=
  { args := ["flutter_creator", "app"], stdin := " x\n", home := Except.ok "/home/u",
    goos := "plan9", templateFS := sampleTemplate, run := sampleGenerator,
    fault := fun _ => false }

/-- A run whose standard input is closed and whose fifteenth operation,
the close of the first copied file, fails. -/
def envEOF : Env :=
  { args := ["flutter_creator", "app"], stdin := "", home := Except.ok "/home/u",
    goos := "linux", templateFS := sampleTemplate, run := fun _ fs => (none, fs),
    fault := fun n => n == 14 }

/-- A run whose generator exits with status 1. -/
def envGeneratorFails : Env :=
  { args := ["flutter_creator", "app"], stdin := "/tmp\n", home := Except.ok "/home/u",
    goos := "linux", templateFS := sampleTemplate,
    run := fun c fs => if c.dir = none then (some (Err.exitStatus 1), fs) else (none, fs),
    fault := fun _ => false }

/-- The sample file system with a regular file where the destination goes. -/
def fsFileAtDest : FS :=
  fun p => if p = ⟨true, ["tmp", "app"]⟩ then some (Node.file [0]) else sampleFS p

/-- A run whose answer names a regular file, `/home/u/notes.txt`, and whose
generator exits with status 1. -/
def envFileAnswer : Env :=
  { args := ["flutter_creator", "app"], stdin := "/home/u/notes.txt\n",
    home := Except.ok "/home/u", goos := "linux", templateFS := sampleTemplate,
    run := fun c fs => if c.dir = none then (some (Err.exitStatus 1), fs) else (none, fs),
    fault := fun _ => false }

/-- The sample file system with the regular file `/home/u/notes.txt`. -/
def fsNotes : FS :=
  fun p => if p = ⟨true, ["home", "u", "notes.txt"]⟩ then some (Node.file [0]) else sampleFS p

/-- The destination of the run that names the regular file. -/
def notesDest : Path := ⟨true, ["home", "u", "notes.txt", "app"]⟩

/-- A run whose third operation, the existence check of the destination,
fails for an outside reason such as EACCES, and whose generator exits with
status 1. -/
def envStatDenied : Env :=
  { args := ["flutter_creator", "app"], stdin := "/tmp\n", home := Except.ok "/home/u",
    goos := "linux", templateFS := sampleTemplate,
    run := fun c fs => if c.dir = none then (some (Err.exitStatus 1), fs) else (none, fs),
    fault := fun n => n == 2 }

/-- A run whose twelfth operation, the copy of the first template file,
fails. -/
def envCopyFails : Env :=
  { args := ["flutter_creator", "app"], stdin := "/tmp\n", home := Except.ok "/home/u",
    goos := "linux", templateFS := sampleTemplate, run := fun _ fs => (none, fs),
    fault := fun n => n == 11 }

/-! ## The template tree -/

theorem runVisits_append (fn : WalkDirFunc) (a b : List (List String × Tree)) (w : World) :
    runVisits fn (a ++ b) w =
      match runVisits fn a w with
      | (some e, w1) => (some e, w1)
      | (none, w1) => runVisits fn b w1 := by
  induction a generalizing w with
  | nil => rfl
  | cons x a ih =>
    simp only [List.cons_append, runVisits]
    rcases h : fn x.1 x.2.isDir none w with ⟨_ | e, w1⟩
    · exact ih w1
    · rfl

mutual
theorem walkDir_eq (fn : WalkDirFunc) :
    ∀ (t : Tree) (name : List String) (w : World),
      walkDir fn name t w = runVisits fn (t.walk name) w
  | Tree.file d, name, w => by
    simp only [walkDir, Tree.walk, runVisits, Tree.isDir]
    rcases fn name false none w with ⟨_ | e, w1⟩ <;> rfl
  | Tree.dir es, name, w => by
    simp only [walkDir, Tree.walk, runVisits, Tree.isDir]
    rcases fn name true none w with ⟨_ | e, w1⟩
    · exact walkDirEntries_eq fn es name w1
    · rfl
theorem walkDirEntries_eq (fn : WalkDirFunc) :
    ∀ (es : Entries) (name : List String) (w : World),
      walkDirEntries fn name es w = runVisits fn (es.walk name) w
  | Entries.nil, name, w => by simp only [walkDirEntries, Entries.walk, runVisits]
  | Entries.cons n t rest, name, w => by
    simp only [walkDirEntries, Entries.walk, runVisits_append]
    rw [walkDir_eq fn t (name ++ [n]) w]
    rcases runVisits fn (t.walk (name ++ [n])) w with ⟨_ | e, w1⟩
    · exact walkDirEntries_eq fn rest name w1
    · rfl
end

theorem entries_hasName_of_find :
    ∀ (es : Entries) (m : String) (r : List String) (node : Tree),
      es.find? m r = some node → es.hasName m = true
  | Entries.nil, m, r, node => by simp [Entries.find?]
  | Entries.cons n t rest, m, r, node => by
    intro h
    simp only [Entries.find?] at h
    simp only [Entries.hasName, Bool.or_eq_true, beq_iff_eq]
    by_cases hnm : n = m
    · exact Or.inl hnm
    · rw [if_neg hnm] at h
      exact Or.inr (entries_hasName_of_find rest m r node h)

theorem tree_mem_walk_self : ∀ (t : Tree) (name : List String), (name, t) ∈ t.walk name
  | Tree.file d, name => by simp [Tree.walk]
  | Tree.dir es, name => by simp [Tree.walk]

mutual
theorem tree_find_of_mem_walk :
    ∀ (t : Tree) (name : List String) (x : List String × Tree), t.WF = true → x ∈ t.walk name →
      ∃ r, x.1 = name ++ r ∧ t.find? r = some x.2 ∧ ∀ n ∈ r, validName n = true
  | Tree.file d, name, x, _, hx => by
    simp only [Tree.walk, List.mem_singleton] at hx
    subst hx
    exact ⟨[], by simp, by simp [Tree.find?], by simp⟩
  | Tree.dir es, name, x, hwf, hx => by
    simp only [Tree.walk, List.mem_cons] at hx
    rcases hx with rfl | hx
    · exact ⟨[], by simp, by simp [Tree.find?], by simp⟩
    · simp only [Tree.WF] at hwf
      obtain ⟨n, r, h1, h2, h3, h4⟩ := entries_find_of_mem_walk es name x hwf hx
      refine ⟨n :: r, h1, by simpa [Tree.find?] using h2, ?_⟩
      intro m hm
      rcases List.mem_cons.1 hm with rfl | hm
      · exact h3
      · exact h4 m hm
theorem entries_find_of_mem_walk :
    ∀ (es : Entries) (name : List String) (x : List String × Tree), es.WF = true →
      x ∈ es.walk name →
      ∃ n r, x.1 = name ++ n :: r ∧ es.find? n r = some x.2 ∧ validName n = true ∧
        ∀ m ∈ r, validName m = true
  | Entries.nil, name, x, _, hx => by simp [Entries.walk] at hx
  | Entries.cons n t rest, name, x, hwf, hx => by
    simp only [Entries.WF, Bool.and_eq_true, Bool.not_eq_true'] at hwf
    obtain ⟨⟨⟨hv, hnot⟩, htwf⟩, hrwf⟩ := hwf
    simp only [Entries.walk, List.mem_append] at hx
    rcases hx with hx | hx
    · obtain ⟨r, h1, h2, h3⟩ := tree_find_of_mem_walk t (name ++ [n]) x htwf hx
      exact ⟨n, r, by simpa using h1, by simpa [Entries.find?] using h2, hv, h3⟩
    · obtain ⟨m, r, h1, h2, h3, h4⟩ := entries_find_of_mem_walk rest name x hrwf hx
      have hm := entries_hasName_of_find rest m r x.2 h2
      have hne : n ≠ m := by
        rintro rfl
        rw [hm] at hnot; cases hnot
      exact ⟨m, r, h1, by simpa [Entries.find?, hne] using h2, h3, h4⟩
end

mutual
theorem tree_mem_walk_of_find :
    ∀ (t : Tree) (name r : List String) (node : Tree), t.find? r = some node →
      (name ++ r, node) ∈ t.walk name
  | t, name, [], node, h => by
    simp only [Tree.find?, Option.some.injEq] at h
    subst h
    simpa using tree_mem_walk_self t name
  | Tree.file d, name, n :: r, node, h => by simp [Tree.find?] at h
  | Tree.dir es, name, n :: r, node, h => by
    simp only [Tree.find?] at h
    simp only [Tree.walk, List.mem_cons]
    exact Or.inr (entries_mem_walk_of_find es name n r node h)
theorem entries_mem_walk_of_find :
    ∀ (es : Entries) (name : List String) (n : String) (r : List String) (node : Tree),
      es.find? n r = some node → (name ++ n :: r, node) ∈ es.walk name
  | Entries.nil, name, n, r, node, h => by simp [Entries.find?] at h
  | Entries.cons m t rest, name, n, r, node, h => by
    simp only [Entries.find?] at h
    simp only [Entries.walk, List.mem_append]
    by_cases hmn : m = n
    · subst hmn
      rw [if_pos rfl] at h
      left
      have := tree_mem_walk_of_find t (name ++ [m]) r node h
      simpa using this
    · rw [if_neg hmn] at h
      exact Or.inr (entries_mem_walk_of_find rest name n r node h)
end

mutual
theorem tree_WF_of_find :
    ∀ (t : Tree) (r : List String) (node : Tree), t.WF = true → t.find? r = some node →
      node.WF = true
  | t, [], node, hwf, h => by
    simp only [Tree.find?, Option.some.injEq] at h
    subst h; exact hwf
  | Tree.file d, n :: r, node, _, h => by simp [Tree.find?] at h
  | Tree.dir es, n :: r, node, hwf, h => by
    simp only [Tree.find?] at h
    simp only [Tree.WF] at hwf
    exact entries_WF_of_find es n r node hwf h
theorem entries_WF_of_find :
    ∀ (es : Entries) (n : String) (r : List String) (node : Tree), es.WF = true →
      es.find? n r = some node → node.WF = true
  | Entries.nil, n, r, node, _, h => by simp [Entries.find?] at h
  | Entries.cons m t rest, n, r, node, hwf, h => by
    simp only [Entries.WF, Bool.and_eq_true] at hwf
    simp only [Entries.find?] at h
    by_cases hmn : m = n
    · rw [if_pos hmn] at h
      exact tree_WF_of_find t r node hwf.1.2 h
    · rw [if_neg hmn] at h
      exact entries_WF_of_find rest n r node hwf.2 h
end

theorem entries_find_split :
    ∀ (es : Entries) (n : String) (r : List String),
      es.find? n r = (es.find? n []).bind (fun t => t.find? r)
  | Entries.nil, n, r => by simp [Entries.find?]
  | Entries.cons m t rest, n, r => by
    simp only [Entries.find?]
    by_cases hmn : m = n
    · simp [hmn, Tree.find?]
    · simp only [if_neg hmn]
      exact entries_find_split rest n r

theorem tree_find_cons (t : Tree) (n : String) (r : List String) :
    t.find? (n :: r) = (t.find? [n]).bind (fun t0 => t0.find? r) := by
  cases t with
  | file d => simp [Tree.find?]
  | dir es =>
    simp only [Tree.find?]
    exact entries_find_split es n r

/-! ## Paths -/

theorem validName_step (abs : Bool) (stack : List String) (n : String) (h : validName n = true) :
    cleanStep abs stack n = n :: stack := by
  simp only [validName, Bool.and_eq_true, bne_iff_ne, ne_eq] at h
  obtain ⟨⟨⟨h1, h2⟩, h3⟩, _⟩ := h
  simp [cleanStep, h1, h2, h3]

theorem foldl_cleanStep_valid (abs : Bool) (r : List String) :
    ∀ stack : List String, (∀ n ∈ r, validName n = true) →
      r.foldl (cleanStep abs) stack = r.reverse ++ stack := by
  induction r with
  | nil => intro stack _; rfl
  | cons n r ih =>
    intro stack h
    rw [List.foldl_cons, validName_step abs stack n (h n (by simp)),
      ih _ (fun m hm => h m (by simp [hm]))]
    simp

theorem cleanElems_append_valid (abs : Bool) (es r : List String)
    (h : ∀ n ∈ r, validName n = true) :
    cleanElems abs (es ++ r) = cleanElems abs es ++ r := by
  unfold cleanElems
  rw [List.foldl_append, foldl_cleanStep_valid abs r _ h]
  simp

/-- Joining valid names onto a path appends them to the cleaned path. -/
theorem join_valid (p : Path) (r : List String) (h : ∀ n ∈ r, validName n = true) :
    p.join r = { abs := p.abs, elems := (p.join []).elems ++ r } := by
  simp only [Path.join, List.append_nil]
  rw [cleanElems_append_valid p.abs p.elems r h]

theorem join_inj (p : Path) (r s : List String) (hr : ∀ n ∈ r, validName n = true)
    (hs : ∀ n ∈ s, validName n = true) (h : p.join r = p.join s) : r = s := by
  rw [join_valid p r hr, join_valid p s hs] at h
  simpa using h

theorem beginsWith_iff (xs ys : List String) :
    beginsWith xs ys = true ↔ ∃ t, xs = ys ++ t := by
  induction ys generalizing xs with
  | nil => simp [beginsWith]
  | cons y ys ih =>
    cases xs with
    | nil => simp [beginsWith]
    | cons x xs =>
      simp only [beginsWith, Bool.and_eq_true, beq_iff_eq, ih, List.cons_append, List.cons.injEq]
      constructor
      · rintro ⟨rfl, t, rfl⟩; exact ⟨t, rfl, rfl⟩
      · rintro ⟨t, rfl, rfl⟩; exact ⟨rfl, t, rfl⟩

theorem mem_parents_self (p q : Path) :
    q ∈ p.parents ++ [p] ↔ q.abs = p.abs ∧ ∃ k, k ≤ p.elems.length ∧ q.elems = p.elems.take k := by
  simp only [Path.parents, List.mem_append, List.mem_map, List.mem_range, List.mem_singleton]
  constructor
  · rintro (⟨k, hk, rfl⟩ | h)
    · exact ⟨rfl, k, le_of_lt hk, rfl⟩
    · subst h; exact ⟨rfl, q.elems.length, le_refl _, by simp⟩
  · rintro ⟨ha, k, hk, he⟩
    rcases Nat.lt_or_ge k p.elems.length with h | h
    · left; refine ⟨k, h, ?_⟩
      cases q; simp_all
    · right
      have : k = p.elems.length := le_antisymm hk h
      subst this
      cases q; cases p; simp_all

/-- An ancestor-or-self of `base ++ r` that has the form `base ++ [n]` forces `r` to start with `n`. -/
theorem take_eq_append_singleton (base r : List String) (n : String) (k : Nat)
    (h : base ++ [n] = (base ++ r).take k) : ∃ rest, r = n :: rest := by
  have hlen := congrArg List.length h
  simp only [List.length_append, List.length_singleton, List.length_take] at hlen
  have hk : base.length + 1 ≤ k := by omega
  cases r with
  | nil => simp only [List.length_nil] at hlen; omega
  | cons x rest =>
    refine ⟨rest, ?_⟩
    have h2 : (base ++ x :: rest).take k = base ++ (x :: rest).take (k - base.length) := by
      rw [List.take_append_eq_append_take]
      have : List.take k base = base := List.take_of_length_le (by omega)
      rw [this]
    rw [h2] at h
    have h3 := List.append_cancel_left h
    have : k - base.length = (k - base.length - 1) + 1 := by omega
    rw [this, List.take_succ_cons] at h3
    simp only [List.cons.injEq] at h3
    rw [h3.1]

/-! ## File-system calls that succeed -/

theorem osMkdirAll_ok (env : Env) (p : Path) (perm : Nat) (w w' : World)
    (h : osMkdirAll env p perm w = (none, w')) :
    (∀ q, w'.fs q =
      if q ∈ p.parents ++ [p] ∧ w.fs q = none then some (Node.dir perm) else w.fs q) ∧
    (p.parents ++ [p]).any (isFileAt w.fs) = false := by
  unfold osMkdirAll at h
  by_cases hf : env.faultNow w = true
  · simp [hf] at h
  · by_cases hany : (p.parents ++ [p]).any (isFileAt w.fs) = true
    · simp [hf, hany] at h
    · simp only [hf, hany, Bool.false_eq_true, if_false, Prod.mk.injEq, true_and] at h
      subst h
      exact ⟨fun _ => rfl, by simpa using hany⟩

theorem osMkdirAll_keeps (env : Env) (p : Path) (perm : Nat) (w w' : World)
    (h : osMkdirAll env p perm w = (none, w')) (q : Path) (n : Node) (hq : w.fs q = some n) :
    w'.fs q = some n := by
  rw [(osMkdirAll_ok env p perm w w' h).1 q]
  simp [hq]

theorem osMkdirAll_file (env : Env) (p : Path) (perm : Nat) (w w' : World)
    (h : osMkdirAll env p perm w = (none, w')) (q : Path) (d : Bytes)
    (hq : w'.fs q = some (Node.file d)) : w.fs q = some (Node.file d) := by
  rw [(osMkdirAll_ok env p perm w w' h).1 q] at hq
  by_cases hc : q ∈ p.parents ++ [p] ∧ w.fs q = none
  · rw [if_pos hc] at hq; cases hq
  · rw [if_neg hc] at hq; exact hq

theorem osMkdirAll_new (env : Env) (p : Path) (perm : Nat) (w w' : World)
    (h : osMkdirAll env p perm w = (none, w')) (q : Path)
    (hq : w.fs q = none) (hq' : w'.fs q ≠ none) : q ∈ p.parents ++ [p] := by
  rw [(osMkdirAll_ok env p perm w w' h).1 q] at hq'
  by_cases hc : q ∈ p.parents ++ [p] ∧ w.fs q = none
  · exact hc.1
  · rw [if_neg hc] at hq'; exact absurd hq hq'

theorem osCreate_ok (env : Env) (p : Path) (w w' : World)
    (h : osCreate env p w = (none, w')) :
    w'.fs = w.fs.set p (Node.file []) ∧ w'.trace = w.trace ++ [⟨Op.create p, true⟩] := by
  unfold osCreate at h
  by_cases hf : env.faultNow w = true
  · simp [hf] at h
  · simp only [hf, Bool.false_eq_true, if_false] at h
    rcases ho : openForWrite w.fs p with _ | e
    · rw [ho] at h
      simp only [Prod.mk.injEq, true_and] at h
      subst h; exact ⟨rfl, rfl⟩
    · rw [ho] at h; simp at h

theorem ioCopy_ok (env : Env) (p : Path) (src : Tree) (w : World)
    (h : (ioCopy env p src w).1 = none) :
    ∃ data, src = Tree.file data ∧ (ioCopy env p src w).2.fs = w.fs.set p (Node.file data) := by
  unfold ioCopy at h ⊢
  by_cases hf : env.faultNow w = true
  · simp [hf] at h
  · simp only [hf, Bool.false_eq_true, if_false] at h ⊢
    cases src with
    | file data => exact ⟨data, rfl, rfl⟩
    | dir es => simp at h

theorem osWriteFile_ok (env : Env) (p : Path) (data : Bytes) (w w' : World)
    (h : osWriteFile env p data w = (none, w')) :
    w'.fs = w.fs.set p (Node.file data) ∧ w'.trace = w.trace ++ [⟨Op.writeFile p, true⟩] := by
  unfold osWriteFile at h
  by_cases hf : env.faultNow w = true
  · simp [hf] at h
  · simp only [hf, Bool.false_eq_true, if_false] at h
    rcases ho : openForWrite w.fs p with _ | e
    · rw [ho] at h
      simp only [Prod.mk.injEq, true_and] at h
      subst h; exact ⟨rfl, rfl⟩
    · rw [ho] at h; simp at h

theorem osRemoveAll_ok (env : Env) (p : Path) (w w' : World)
    (h : osRemoveAll env p w = (none, w')) :
    w'.fs = (fun q => if q.under p then none else w.fs q) := by
  unfold osRemoveAll at h
  by_cases hf : env.faultNow w = true
  · simp [hf] at h
  · by_cases hany : p.parents.any (isFileAt w.fs) = true
    · simp [hf, hany] at h
    · simp only [hf, hany, Bool.false_eq_true, if_false, Prod.mk.injEq, true_and] at h
      subst h; rfl

theorem filepathRel_base (r : List String) :
    filepathRel ["flutter_base"] ("flutter_base" :: r) = Except.ok r := by
  cases r <;> simp [filepathRel, stripCommon]

/-- What one successful visit of the overlay does to the file system. -/
theorem copyEntry_step (env : Env) (dest : Path) (r : List String) (node : Tree) (w w' : World)
    (hfind : env.templateFS.find? ("flutter_base" :: r) = some node)
    (h : copyEntry env dest ("flutter_base" :: r) node.isDir none w = (none, w')) :
    (node.isDir = true ∧ osMkdirAll env (dest.join r) 0o755 w = (none, w')) ∨
    (∃ data, node = Tree.file data ∧
      ∀ q, w'.fs q = if q = dest.join r then some (Node.file data) else w.fs q) := by
  simp only [copyEntry, filepathRel_base] at h
  cases hd : node.isDir with
  | true =>
    rw [hd] at h
    simp only [if_true] at h
    exact Or.inl ⟨rfl, h⟩
  | false =>
    right
    rw [hd] at h
    simp only [Bool.false_eq_true, if_false, embedOpen, hfind] at h
    rcases hc : osCreate env (dest.join r) (w.log (Op.embedOpen ("flutter_base" :: r)) true)
      with ⟨_ | e, w2⟩
    · rw [hc] at h
      simp only [Prod.mk.injEq] at h
      obtain ⟨data, hnode, hfs⟩ := ioCopy_ok env (dest.join r) node w2 h.1
      refine ⟨data, hnode, ?_⟩
      intro q
      rw [← h.2]
      simp only [closeSrc, closeDst, World.log, hfs, (osCreate_ok _ _ _ _ hc).1, FS.set]
      by_cases hq : q = dest.join r <;> simp [hq]
    · rw [hc] at h; simp at h

/-! ## The overlay as a loop over the visits -/

theorem runVisits_cons_ok (fn : WalkDirFunc) (x : List String × Tree)
    (L : List (List String × Tree)) (w w' : World)
    (h : runVisits fn (x :: L) w = (none, w')) :
    ∃ w1, fn x.1 x.2.isDir none w = (none, w1) ∧ runVisits fn L w1 = (none, w') := by
  simp only [runVisits] at h
  rcases hx : fn x.1 x.2.isDir none w with ⟨_ | e, w1⟩
  · rw [hx] at h; exact ⟨w1, rfl, h⟩
  · rw [hx] at h; simp at h

theorem Visits.tail {env : Env} {x : List String × Tree} {L : List (List String × Tree)}
    (h : Visits env (x :: L)) : Visits env L :=
  fun y hy => h y (List.mem_cons_of_mem _ hy)

/-- A file stays what it is when every later visit of its path writes the same bytes. -/
theorem overlay_file_kept (env : Env) (dest : Path) (q : Path) (data : Bytes) :
    ∀ (L : List (List String × Tree)) (w w' : World),
      runVisits (copyEntry env dest) L w = (none, w') → Visits env L →
      w.fs q = some (Node.file data) →
      (∀ x ∈ L, ∀ r, x.1 = "flutter_base" :: r → dest.join r = q → x.2 = Tree.file data) →
      w'.fs q = some (Node.file data) := by
  intro L
  induction L with
  | nil =>
    intro w w' h _ hq _
    simp only [runVisits, Prod.mk.injEq, true_and] at h
    rw [← h]; exact hq
  | cons x L ih =>
    intro w w' h hV hq hsame
    obtain ⟨w1, hstep, hrest⟩ := runVisits_cons_ok _ x L w w' h
    obtain ⟨r, hx1, _, hfind⟩ := hV x (List.mem_cons_self _ _)
    rw [hx1] at hstep hfind
    have hq1 : w1.fs q = some (Node.file data) := by
      rcases copyEntry_step env dest r x.2 w w1 hfind hstep with ⟨_, hmk⟩ | ⟨d, hnode, hfs⟩
      · exact osMkdirAll_keeps env _ _ w w1 hmk q _ hq
      · rw [hfs q]
        by_cases hqe : q = dest.join r
        · rw [if_pos hqe]
          have := hsame x (List.mem_cons_self _ _) r hx1 hqe.symm
          rw [hnode] at this
          cases this; rfl
        · rw [if_neg hqe]; exact hq
    exact ih w1 w' hrest hV.tail hq1
      (fun y hy r' h1 h2 => hsame y (List.mem_cons_of_mem _ hy) r' h1 h2)

/-- After a successful overlay every visited file is at its place with its bytes. -/
theorem overlay_file_written (env : Env) (dest : Path) (r : List String) (data : Bytes) :
    ∀ (L : List (List String × Tree)) (w w' : World),
      runVisits (copyEntry env dest) L w = (none, w') → Visits env L →
      ("flutter_base" :: r, Tree.file data) ∈ L →
      w'.fs (dest.join r) = some (Node.file data) := by
  intro L
  induction L with
  | nil => intro w w' _ _ hmem; simp at hmem
  | cons x L ih =>
    intro w w' h hV hmem
    obtain ⟨w1, hstep, hrest⟩ := runVisits_cons_ok _ x L w w' h
    obtain ⟨r0, hr0, hvalid, hfind0⟩ := hV _ hmem
    simp only [List.cons.injEq, true_and] at hr0
    subst hr0
    rcases List.mem_cons.1 hmem with hx | hL
    · subst hx
      have hq1 : w1.fs (dest.join r) = some (Node.file data) := by
        rcases copyEntry_step env dest r _ w w1 hfind0 hstep with ⟨hdir, _⟩ | ⟨d, hnode, hfs⟩
        · simp [Tree.isDir] at hdir
        · rw [hfs]; simp only [if_true]
          cases hnode; rfl
      refine overlay_file_kept env dest _ data L w1 w' hrest hV.tail hq1 ?_
      intro y hy r' hy1 hjoin
      obtain ⟨r2, hr2, hv2, hf2⟩ := hV y (List.mem_cons_of_mem _ hy)
      rw [hy1] at hr2
      simp only [List.cons.injEq, true_and] at hr2
      subst hr2
      have : r' = r := join_inj dest r' r hv2 hvalid hjoin
      subst this
      rw [hy1, hfind0] at hf2
      exact (Option.some.inj hf2).symm
    · exact ih w1 w' hrest hV.tail hL

/-- A file present after the overlay was there before or is a visited file. -/
theorem overlay_file_origin (env : Env) (dest : Path) (q : Path) (data : Bytes) :
    ∀ (L : List (List String × Tree)) (w w' : World),
      runVisits (copyEntry env dest) L w = (none, w') → Visits env L →
      w'.fs q = some (Node.file data) →
      w.fs q = some (Node.file data) ∨
        ∃ r, ("flutter_base" :: r, Tree.file data) ∈ L ∧ q = dest.join r := by
  intro L
  induction L with
  | nil =>
    intro w w' h _ hq
    simp only [runVisits, Prod.mk.injEq, true_and] at h
    rw [← h] at hq; exact Or.inl hq
  | cons x L ih =>
    intro w w' h hV hq
    obtain ⟨w1, hstep, hrest⟩ := runVisits_cons_ok _ x L w w' h
    obtain ⟨r, hx1, _, hfind⟩ := hV x (List.mem_cons_self _ _)
    rcases ih w1 w' hrest hV.tail hq with h1 | ⟨r', hmem, hq'⟩
    · rw [hx1] at hstep hfind
      rcases copyEntry_step env dest r x.2 w w1 hfind hstep with ⟨_, hmk⟩ | ⟨d, hnode, hfs⟩
      · exact Or.inl (osMkdirAll_file env _ _ w w1 hmk q data h1)
      · rw [hfs q] at h1
        by_cases hqe : q = dest.join r
        · rw [if_pos hqe] at h1
          cases h1
          right
          refine ⟨r, ?_, hqe⟩
          have : x = ("flutter_base" :: r, Tree.file data) := by
            cases x; simp only at hx1 hnode; rw [hx1, hnode]
          rw [this]; exact List.mem_cons_self _ _
        · rw [if_neg hqe] at h1; exact Or.inl h1
    · exact Or.inr ⟨r', List.mem_cons_of_mem _ hmem, hq'⟩

/-- A path that appears during the overlay is a visited target or one of its ancestors. -/
theorem overlay_new_path (env : Env) (dest : Path) (q : Path) :
    ∀ (L : List (List String × Tree)) (w w' : World),
      runVisits (copyEntry env dest) L w = (none, w') → Visits env L →
      w.fs q = none → w'.fs q ≠ none →
      ∃ x ∈ L, ∃ r, x.1 = "flutter_base" :: r ∧
        q ∈ (dest.join r).parents ++ [dest.join r] := by
  intro L
  induction L with
  | nil =>
    intro w w' h _ hq hq'
    simp only [runVisits, Prod.mk.injEq, true_and] at h
    rw [← h] at hq'; exact absurd hq hq'
  | cons x L ih =>
    intro w w' h hV hq hq'
    obtain ⟨w1, hstep, hrest⟩ := runVisits_cons_ok _ x L w w' h
    obtain ⟨r, hx1, _, hfind⟩ := hV x (List.mem_cons_self _ _)
    by_cases h1 : w1.fs q = none
    · obtain ⟨y, hy, r', hr', hmem⟩ := ih w1 w' hrest hV.tail h1 hq'
      exact ⟨y, List.mem_cons_of_mem _ hy, r', hr', hmem⟩
    · refine ⟨x, List.mem_cons_self _ _, r, hx1, ?_⟩
      rw [hx1] at hstep hfind
      rcases copyEntry_step env dest r x.2 w w1 hfind hstep with ⟨_, hmk⟩ | ⟨d, hnode, hfs⟩
      · exact osMkdirAll_new env _ _ w w1 hmk q hq h1
      · rw [hfs q] at h1
        by_cases hqe : q = dest.join r
        · rw [hqe]; simp
        · rw [if_neg hqe] at h1; exact absurd hq h1

/-- The walk of `copyTemplateStructure`, when the root is found, as a loop. -/
theorem copyTemplateStructure_eq (env : Env) (dest : Path) (w : World) (t0 : Tree)
    (hroot : env.templateFS.find? ["flutter_base"] = some t0) :
    copyTemplateStructure env dest w =
      runVisits (copyEntry env dest) (t0.walk ["flutter_base"])
        (w.log (Op.embedStat ["flutter_base"]) true) := by
  simp only [copyTemplateStructure, fsWalkDir, hroot]
  exact walkDir_eq _ t0 _ _

theorem find_below_root (env : Env) (t0 : Tree) (r : List String)
    (hroot : env.templateFS.find? ["flutter_base"] = some t0) :
    env.templateFS.find? ("flutter_base" :: r) = t0.find? r := by
  rw [tree_find_cons, hroot]; rfl

theorem visits_walk (env : Env) (t0 : Tree) (hwf : env.templateFS.WF = true)
    (hroot : env.templateFS.find? ["flutter_base"] = some t0) :
    Visits env (t0.walk ["flutter_base"]) := by
  intro x hx
  have hwf0 := tree_WF_of_find _ _ _ hwf hroot
  obtain ⟨r, h1, h2, h3⟩ := tree_find_of_mem_walk t0 ["flutter_base"] x hwf0 hx
  refine ⟨r, by simpa using h1, h3, ?_⟩
  have h1' : x.1 = "flutter_base" :: r := by simpa using h1
  rw [h1', find_below_root env t0 r hroot]; exact h2

/-- A successful `copyTemplateStructure` found the root. -/
theorem copyTemplateStructure_root (env : Env) (dest : Path) (w w' : World)
    (h : copyTemplateStructure env dest w = (none, w')) :
    ∃ t0, env.templateFS.find? ["flutter_base"] = some t0 := by
  rcases hroot : env.templateFS.find? ["flutter_base"] with _ | t0
  · simp [copyTemplateStructure, fsWalkDir, hroot, copyEntry] at h
  · exact ⟨t0, rfl⟩

/-- Claim C1.  Template overlay is complete and faithful: for every embedded
template (an embedded tree has valid, pairwise different names in each
directory), every destination and every initial world, when
`copyTemplateStructure` returns no error, each regular file of the template at
the path `r` below `flutter_base` is afterwards at `Join(dest, r)` with exactly
the bytes of the template, whatever was at that path before; that path is the
cleaned destination followed by the elements of `r`, so the root of the
template maps to the destination itself and not to `dest/flutter_base`. -/
theorem overlay_complete (env : Env) (dest : Path) (w w' : World)
    (hwf : env.templateFS.WF = true)
    (h : copyTemplateStructure env dest w = (none, w'))
    (r : List String) (data : Bytes)
    (hfile : env.templateFS.find? ("flutter_base" :: r) = some (Tree.file data)) :
    w'.fs (dest.join r) = some (Node.file data) ∧
    dest.join r = { abs := dest.abs, elems := (dest.join []).elems ++ r } := by
  obtain ⟨t0, hroot⟩ := copyTemplateStructure_root env dest w w' h
  rw [copyTemplateStructure_eq env dest w t0 hroot] at h
  have hV := visits_walk env t0 hwf hroot
  rw [find_below_root env t0 r hroot] at hfile
  have hmem := tree_mem_walk_of_find t0 ["flutter_base"] r _ hfile
  have hmem' : ("flutter_base" :: r, Tree.file data) ∈ t0.walk ["flutter_base"] := by
    simpa using hmem
  obtain ⟨r', hr', hvalid, _⟩ := hV _ hmem'
  simp only [List.cons.injEq, true_and] at hr'
  subst hr'
  exact ⟨overlay_file_written env dest r data _ _ w' h hV hmem', join_valid dest r hvalid⟩

/-! ## Successful runs -/

/-- A run of `mainFrom` that ends with code 0 went through every step without error. -/
theorem mainFrom_success (env : Env) (projectName : String) (w0 : World)
    (h : (mainFrom env projectName w0).code = 0) :
    ∃ dest w1 w2 w3 w4 w5 w6,
      askForSavePath env projectName w0 = (Except.ok dest, w1) ∧
      ensureDirectoryExists env dest w1 = (none, w2) ∧
      createFlutterProjectAtPath env dest w2 = (none, w3) ∧
      osRemoveAll env (dest.join ["lib"]) w3 = (none, w4) ∧
      copyTemplateStructure env dest w4 = (none, w5) ∧
      mergePubspec env dest w5 = (none, w6) ∧
      initGit env dest w6 = (none, (mainFrom env projectName w0).world) := by
  unfold mainFrom at h ⊢
  rcases h1 : askForSavePath env projectName w0 with ⟨e | dest, w1⟩
  · rw [h1] at h; simp at h
  simp only [h1] at h ⊢
  rcases h2 : ensureDirectoryExists env dest w1 with ⟨_ | e, w2⟩
  swap
  · rw [h2] at h; simp at h
  simp only [h2] at h ⊢
  rcases h3 : createFlutterProjectAtPath env dest w2 with ⟨_ | e, w3⟩
  swap
  · rw [h3] at h; simp at h
  simp only [h3] at h ⊢
  rcases h4 : osRemoveAll env (dest.join ["lib"]) w3 with ⟨_ | e, w4⟩
  swap
  · rw [h4] at h; simp at h
  simp only [h4] at h ⊢
  rcases h5 : copyTemplateStructure env dest w4 with ⟨_ | e, w5⟩
  swap
  · rw [h5] at h; simp at h
  simp only [h5] at h ⊢
  rcases h6 : mergePubspec env dest w5 with ⟨_ | e, w6⟩
  swap
  · rw [h6] at h; simp at h
  simp only [h6] at h ⊢
  rcases h7 : initGit env dest w6 with ⟨_ | e, w7⟩
  swap
  · rw [h7] at h; simp at h
  simp only [h7] at h ⊢
  exact ⟨dest, w1, w2, w3, w4, w5, w6, rfl, h2, h3, h4, h5, h6, h7⟩

/-- A run that exits with code 0 went through every step without error. -/
theorem main_success (env : Env) (fs0 : FS) (h : (main env fs0).code = 0) :
    ∃ dest w1 w2 w3 w4 w5 w6,
      2 ≤ env.args.length ∧
      askForSavePath env (env.args.getD 1 "") (World.log ⟨fs0, []⟩ Op.args true) =
        (Except.ok dest, w1) ∧
      ensureDirectoryExists env dest w1 = (none, w2) ∧
      createFlutterProjectAtPath env dest w2 = (none, w3) ∧
      osRemoveAll env (dest.join ["lib"]) w3 = (none, w4) ∧
      copyTemplateStructure env dest w4 = (none, w5) ∧
      mergePubspec env dest w5 = (none, w6) ∧
      initGit env dest w6 = (none, (main env fs0).world) := by
  unfold main at h ⊢
  by_cases ha : env.args.length < 2
  · rw [if_pos ha] at h; simp at h
  · rw [if_neg ha] at h ⊢
    obtain ⟨dest, w1, w2, w3, w4, w5, w6, h1, h2, h3, h4, h5, h6, h7⟩ :=
      mainFrom_success env _ _ h
    exact ⟨dest, w1, w2, w3, w4, w5, w6, by omega, h1, h2, h3, h4, h5, h6, h7⟩

/-- What a successful `mergePubspec` does. -/
theorem mergePubspec_ok (env : Env) (dest : Path) (w w' : World)
    (h : mergePubspec env dest w = (none, w')) :
    ∃ data, env.templateFS.find? ["flutter_base", "pubspec.yaml"] = some (Tree.file data) ∧
      ∀ q, w'.fs q = if q = dest.join ["pubspec.yaml"] then some (Node.file data) else w.fs q := by
  unfold mergePubspec embedReadFile at h
  rcases hf : env.templateFS.find? ["flutter_base", "pubspec.yaml"] with _ | t
  · simp [hf] at h
  · cases t with
    | dir es => simp [hf] at h
    | file data =>
      simp only [hf] at h
      rcases hw : osWriteFile env (dest.join ["pubspec.yaml"]) data
        (w.log (Op.embedReadFile ["flutter_base", "pubspec.yaml"]) true) with ⟨_ | e, w2⟩
      · rw [hw] at h
        simp only [Prod.mk.injEq, true_and] at h
        subst h
        refine ⟨data, rfl, ?_⟩
        intro q
        rw [(osWriteFile_ok _ _ _ _ _ hw).1]
        simp [FS.set, World.log]
      · rw [hw] at h; simp at h

theorem validName_lib : ∀ n ∈ ["lib"], validName n = true := by decide

theorem validName_pubspec : ∀ n ∈ ["pubspec.yaml"], validName n = true := by decide

/-- A path at or below `dest/lib` is `dest` followed by `lib` and more elements. -/
theorem under_lib (dest q : Path) (h : q.under (dest.join ["lib"]) = true) :
    ∃ t, q = { abs := dest.abs, elems := (dest.join []).elems ++ "lib" :: t } := by
  rw [join_valid dest ["lib"] validName_lib] at h
  simp only [Path.under, Bool.and_eq_true, beq_iff_eq, beginsWith_iff] at h
  obtain ⟨ha, t, ht⟩ := h
  refine ⟨t, ?_⟩
  cases q
  simp only [Path.mk.injEq] at ha ht ⊢
  exact ⟨ha, by simpa using ht⟩

theorem under_lib_ne_pubspec (dest q : Path) (h : q.under (dest.join ["lib"]) = true) :
    q ≠ dest.join ["pubspec.yaml"] := by
  obtain ⟨t, rfl⟩ := under_lib dest q h
  rw [join_valid dest ["pubspec.yaml"] validName_pubspec]
  intro heq
  simp only [Path.mk.injEq, true_and, List.append_cancel_left_eq, List.cons.injEq] at heq
  exact absurd heq.1 (by decide)

/-- Claim C3.  No leftover generator source folder: in every run of `main`
that exits with code 0, `Join(dest, "lib")` is removed with everything below it
after the generator has run and before the overlay starts; after the overlay
and the manifest step every regular file at or below `Join(dest, "lib")` is a
file of the template at the same relative path with the bytes of the template;
and when the template has no `lib` entry, `Join(dest, "lib")` does not exist. -/
theorem no_leftover_lib (env : Env) (fs0 : FS) (hwf : env.templateFS.WF = true)
    (hok : (main env fs0).code = 0) :
    ∃ (dest : Path) (w1 w2 w3 w4 w5 w6 : World),
      askForSavePath env (env.args.getD 1 "") (World.log ⟨fs0, []⟩ Op.args true) =
        (Except.ok dest, w1) ∧
      ensureDirectoryExists env dest w1 = (none, w2) ∧
      createFlutterProjectAtPath env dest w2 = (none, w3) ∧
      osRemoveAll env (dest.join ["lib"]) w3 = (none, w4) ∧
      (∀ q, q.under (dest.join ["lib"]) = true → w4.fs q = none) ∧
      copyTemplateStructure env dest w4 = (none, w5) ∧
      mergePubspec env dest w5 = (none, w6) ∧
      initGit env dest w6 = (none, (main env fs0).world) ∧
      (∀ q data, q.under (dest.join ["lib"]) = true → w6.fs q = some (Node.file data) →
        ∃ rel, q = dest.join ("lib" :: rel) ∧
          env.templateFS.find? ("flutter_base" :: "lib" :: rel) = some (Tree.file data)) ∧
      (env.templateFS.find? ["flutter_base", "lib"] = none →
        w6.fs (dest.join ["lib"]) = none) := by
  obtain ⟨dest, w1, w2, w3, w4, w5, w6, _, h1, h2, h3, h4, h5, h6, h7⟩ :=
    main_success env fs0 hok
  have hrm : ∀ q, q.under (dest.join ["lib"]) = true → w4.fs q = none := by
    intro q hq
    rw [osRemoveAll_ok env _ w3 w4 h4]
    simp [hq]
  obtain ⟨pub, _, hm⟩ := mergePubspec_ok env dest w5 w6 h6
  obtain ⟨t0, hroot⟩ := copyTemplateStructure_root env dest w4 w5 h5
  have h5' := h5
  rw [copyTemplateStructure_eq env dest w4 t0 hroot] at h5'
  have hV := visits_walk env t0 hwf hroot
  refine ⟨dest, w1, w2, w3, w4, w5, w6, h1, h2, h3, h4, hrm, h5, h6, h7, ?_, ?_⟩
  · intro q data hq hfile
    have hne := under_lib_ne_pubspec dest q hq
    rw [hm q, if_neg hne] at hfile
    rcases overlay_file_origin env dest q data _ _ w5 h5' hV hfile with h0 | ⟨r, hmem, hqr⟩
    · have := hrm q hq
      simp only [World.log] at h0
      rw [this] at h0; cases h0
    · obtain ⟨r', hr', hvalid, hfind⟩ := hV _ hmem
      simp only [List.cons.injEq, true_and] at hr'
      subst hr'
      obtain ⟨t, ht⟩ := under_lib dest q hq
      rw [hqr, join_valid dest r hvalid] at ht
      simp only [Path.mk.injEq, true_and, List.append_cancel_left_eq] at ht
      subst ht
      exact ⟨t, hqr, hfind⟩
  · intro hnolib
    have hself : (dest.join ["lib"]).under (dest.join ["lib"]) = true := by
      simp only [Path.under, Bool.and_eq_true, beq_self_eq_true, true_and, beginsWith_iff]
      exact ⟨[], by simp⟩
    have hne := under_lib_ne_pubspec dest _ hself
    rw [hm _, if_neg hne]
    by_contra hex
    have h4none : (w4.log (Op.embedStat ["flutter_base"]) true).fs (dest.join ["lib"]) = none :=
      hrm _ hself
    obtain ⟨x, hx, r, hx1, hmem⟩ :=
      overlay_new_path env dest (dest.join ["lib"]) _ _ w5 h5' hV h4none hex
    obtain ⟨r', hr', hvalid, hfind⟩ := hV x hx
    rw [hx1] at hr'
    simp only [List.cons.injEq, true_and] at hr'
    subst hr'
    rw [mem_parents_self] at hmem
    obtain ⟨_, k, _, hk⟩ := hmem
    rw [join_valid dest r hvalid, join_valid dest ["lib"] validName_lib] at hk
    simp only at hk
    obtain ⟨rest, hrest⟩ := take_eq_append_singleton _ r "lib" k hk
    subst hrest
    rw [hx1, find_below_root env t0 _ hroot, tree_find_cons] at hfind
    rw [find_below_root env t0 _ hroot] at hnolib
    rw [hnolib] at hfind
    simp at hfind

/-! ## The repository bootstrap -/

theorem cmdRun_trace (env : Env) (c : Cmd) (w : World) :
    (cmdRun env c w).2.trace = w.trace ++ [⟨Op.run c, (cmdRun env c w).1.isNone⟩] := rfl

/-- The loop over the commands runs an initial segment of them. -/
theorem runCmds_spec (env : Env) (dir : Path) :
    ∀ (cmds : List (List String)) (w : World),
      ∃ evs : List Event,
        (runCmds env dir cmds w).2.trace = w.trace ++ evs ∧
        evs.map Event.op = (cmds.take evs.length).map (fun a => Op.run ⟨a, some dir⟩) ∧
        (∀ e ∈ evs.dropLast, e.ok = true) ∧
        ((runCmds env dir cmds w).1 = none ↔
          evs.length = cmds.length ∧ ∀ e ∈ evs, e.ok = true) ∧
        (∀ err, (runCmds env dir cmds w).1 = some err →
          ∃ c wpre, c ∈ cmds ∧ evs.getLast? = some ⟨Op.run ⟨c, some dir⟩, false⟩ ∧
            cmdRun env ⟨c, some dir⟩ wpre = (some err, (runCmds env dir cmds w).2)) := by
  intro cmds
  induction cmds with
  | nil =>
    intro w
    exact ⟨[], by simp [runCmds], by simp, by simp, by simp [runCmds], by simp [runCmds]⟩
  | cons c cs ih =>
    intro w
    rcases hr : cmdRun env ⟨c, some dir⟩ w with ⟨_ | e, w1⟩
    · obtain ⟨evs, h1, h2, h3, h4, h5⟩ := ih w1
      have ht : w1.trace = w.trace ++ [⟨Op.run ⟨c, some dir⟩, true⟩] := by
        have := cmdRun_trace env ⟨c, some dir⟩ w
        rw [hr] at this; exact this
      have hrun : runCmds env dir (c :: cs) w = runCmds env dir cs w1 := by
        simp only [runCmds, hr]
      refine ⟨⟨Op.run ⟨c, some dir⟩, true⟩ :: evs, ?_, ?_, ?_, ?_, ?_⟩
      · rw [hrun, h1, ht]; simp
      · simp [h2]
      · intro e he
        cases evs with
        | nil => simp at he
        | cons a evs =>
          simp only [List.dropLast_cons₂, List.mem_cons] at he
          rcases he with rfl | he
          · rfl
          · exact h3 e he
      · rw [hrun, h4]; simp
      · intro err herr
        rw [hrun] at herr ⊢
        obtain ⟨c', wpre, hc', hlast, hcmd⟩ := h5 err herr
        refine ⟨c', wpre, List.mem_cons_of_mem _ hc', ?_, hcmd⟩
        cases evs with
        | nil => simp at hlast
        | cons a evs => simpa [List.getLast?_cons_cons] using hlast
    · have ht : w1.trace = w.trace ++ [⟨Op.run ⟨c, some dir⟩, false⟩] := by
        have := cmdRun_trace env ⟨c, some dir⟩ w
        rw [hr] at this; exact this
      have hrun : runCmds env dir (c :: cs) w = (some e, w1) := by
        simp only [runCmds, hr]
      refine ⟨[⟨Op.run ⟨c, some dir⟩, false⟩], ?_, ?_, ?_, ?_, ?_⟩
      · rw [hrun, ht]
      · simp
      · simp
      · rw [hrun]; simp
      · intro err herr
        rw [hrun] at herr ⊢
        simp only [Option.some.injEq] at herr
        subst herr
        exact ⟨c, w, List.mem_cons_self _ _, rfl, hr⟩

/-- Claim C8.  The repository bootstrap runs an initial segment of a fixed
sequence: the commands `initGit` runs are, in order, the first commands of
`git init`, `git add .`, `git commit -m "Initial commit: Flutter project
structure"` (written out in the statement), each with the destination as
working directory; every command
before the last one run succeeded; `initGit` returns no error exactly when all
three ran and succeeded; an error it returns is the error of the last command
run, which failed; and when `git init` fails, it is the only command run. -/
theorem initGit_initial_segment (env : Env) (dest : Path) (w : World) :
    ∃ evs : List Event,
      (initGit env dest w).2.trace = w.trace ++ evs ∧
      evs.map Event.op =
        ([Op.run ⟨["git", "init"], some dest⟩, Op.run ⟨["git", "add", "."], some dest⟩,
          Op.run ⟨["git", "commit", "-m", "Initial commit: Flutter project structure"],
            some dest⟩].take evs.length) ∧
      (∀ e ∈ evs.dropLast, e.ok = true) ∧
      ((initGit env dest w).1 = none ↔ evs.length = 3 ∧ ∀ e ∈ evs, e.ok = true) ∧
      (∀ err, (initGit env dest w).1 = some err →
        ∃ c wpre,
          c ∈ [["git", "init"], ["git", "add", "."],
            ["git", "commit", "-m", "Initial commit: Flutter project structure"]] ∧
          evs.getLast? = some ⟨Op.run ⟨c, some dest⟩, false⟩ ∧
          cmdRun env ⟨c, some dest⟩ wpre = (some err, (initGit env dest w).2)) ∧
      (∀ err, (env.run ⟨["git", "init"], some dest⟩ w.fs).1 = some err →
        (initGit env dest w).1 = some err ∧
          evs = [⟨Op.run ⟨["git", "init"], some dest⟩, false⟩]) := by
  obtain ⟨evs, h1, h2, h3, h4, h5⟩ := runCmds_spec env dest gitCmds w
  refine ⟨evs, h1, ?_, h3, h4, h5, ?_⟩
  · rw [h2, List.map_take]
    rfl
  intro err herr
  have hrun : initGit env dest w =
      (some err, (cmdRun env ⟨["git", "init"], some dest⟩ w).2) := by
    have hc : cmdRun env ⟨["git", "init"], some dest⟩ w =
        (some err, (cmdRun env ⟨["git", "init"], some dest⟩ w).2) := by
      apply Prod.ext
      · exact herr
      · rfl
    simp only [initGit, gitCmds, runCmds]
    rw [hc]
  refine ⟨by rw [hrun], ?_⟩
  have h1' : (initGit env dest w).2.trace = w.trace ++ evs := h1
  rw [hrun] at h1'
  rw [cmdRun_trace] at h1'
  have := List.append_cancel_left h1'
  rw [← this]
  simp [cmdRun, herr]

/-! ## Which failures stop the run -/

theorem fatal_of_isClose (e : Event) (h : e.isClose = true) : e.fatal = false := by
  rcases e with ⟨op, ok⟩
  cases op <;> simp_all [Event.isClose, Event.fatal]

theorem Halts.seq {a b : List Event} {r : Bool} (ha : Halts a false) (hb : Halts b r) :
    Halts (a ++ b) r := by
  cases r with
  | false =>
    intro e he
    rcases List.mem_append.1 he with h | h
    · exact ha e h
    · exact hb e h
  | true =>
    obtain ⟨pre, e, post, h1, h2, h3, h4⟩ := hb
    refine ⟨a ++ pre, e, post, by rw [h1]; simp, ?_, h3, h4⟩
    intro x hx
    rcases List.mem_append.1 hx with h | h
    · exact ha x h
    · exact h2 x h

theorem Halts.closes {a c : List Event} (ha : Halts a true) (hc : ∀ x ∈ c, x.isClose = true) :
    Halts (a ++ c) true := by
  obtain ⟨pre, e, post, h1, h2, h3, h4⟩ := ha
  refine ⟨pre, e, post ++ c, by rw [h1]; simp, h2, h3, ?_⟩
  intro x hx
  rcases List.mem_append.1 hx with h | h
  · exact h4 x h
  · exact hc x h

/-- A single operation whose failure is acted on. -/
theorem Halts.single (op : Op) (r : Option Err)
    (hop : (⟨op, false⟩ : Event).fatal = true) : Halts [⟨op, r.isNone⟩] r.isSome := by
  cases r with
  | none =>
    intro e he
    simp only [List.mem_singleton] at he
    subst he
    simp [Event.fatal]
  | some err =>
    exact ⟨[], ⟨op, false⟩, [], rfl, by simp, hop, by simp⟩

theorem osMkdirAll_trace (env : Env) (p : Path) (perm : Nat) (w : World) :
    (osMkdirAll env p perm w).2.trace =
      w.trace ++ [⟨Op.mkdirAll p perm, (osMkdirAll env p perm w).1.isNone⟩] := by
  unfold osMkdirAll
  split
  · rfl
  · split <;> rfl

theorem osRemoveAll_trace (env : Env) (p : Path) (w : World) :
    (osRemoveAll env p w).2.trace =
      w.trace ++ [⟨Op.removeAll p, (osRemoveAll env p w).1.isNone⟩] := by
  unfold osRemoveAll
  split
  · rfl
  · split <;> rfl

theorem osCreate_trace (env : Env) (p : Path) (w : World) :
    (osCreate env p w).2.trace = w.trace ++ [⟨Op.create p, (osCreate env p w).1.isNone⟩] := by
  unfold osCreate
  split
  · rfl
  · split <;> rfl

theorem ioCopy_trace (env : Env) (p : Path) (src : Tree) (w : World) :
    (ioCopy env p src w).2.trace =
      w.trace ++ [⟨Op.copy p, (ioCopy env p src w).1.isNone⟩] := by
  unfold ioCopy
  split
  · rfl
  · split <;> rfl

theorem osWriteFile_trace (env : Env) (p : Path) (data : Bytes) (w : World) :
    (osWriteFile env p data w).2.trace =
      w.trace ++ [⟨Op.writeFile p, (osWriteFile env p data w).1.isNone⟩] := by
  unfold osWriteFile
  split
  · rfl
  · split <;> rfl

theorem osStat_trace (env : Env) (p : Path) (w : World) :
    ∃ b, (osStat env p w).2.trace = w.trace ++ [⟨Op.stat p, b⟩] := by
  unfold osStat
  split
  · exact ⟨false, rfl⟩
  · split
    · exact ⟨true, rfl⟩
    · exact ⟨false, rfl⟩

theorem Ran.refl (w : World) : Ran w w false :=
  ⟨[], by simp, by intro e he; simp at he⟩

theorem Ran.trans {w0 w w' : World} {r : Bool} (h1 : Ran w0 w false) (h2 : Ran w w' r) :
    Ran w0 w' r := by
  obtain ⟨a, ha, hha⟩ := h1
  obtain ⟨b, hb, hhb⟩ := h2
  exact ⟨a ++ b, by rw [hb, ha]; simp, hha.seq hhb⟩

/-- One logged operation whose failure is acted on. -/
theorem Ran.op (w w' : World) (op : Op) (r : Option Err)
    (ht : w'.trace = w.trace ++ [⟨op, r.isNone⟩])
    (hop : (⟨op, false⟩ : Event).fatal = true) : Ran w w' r.isSome :=
  ⟨_, ht, Halts.single op r hop⟩

/-- One logged operation whose failure is dropped. -/
theorem Ran.ignored (w w' : World) (e : Event) (ht : w'.trace = w.trace ++ [e])
    (he : e.fatal = false) : Ran w w' false :=
  ⟨[e], ht, by intro x hx; simp only [List.mem_singleton] at hx; rw [hx]; exact he⟩

/-- A failed step followed by deferred closes only. -/
theorem Ran.thenClose {w0 w w' : World} (h : Ran w0 w true) (e : Event)
    (ht : w'.trace = w.trace ++ [e]) (he : e.isClose = true) : Ran w0 w' true := by
  obtain ⟨a, ha, hha⟩ := h
  refine ⟨a ++ [e], by rw [ht, ha]; simp, hha.closes ?_⟩
  intro x hx
  simp only [List.mem_singleton] at hx
  rw [hx]; exact he

theorem getDefaultSavePath_ran (env : Env) (projectName : String) (w : World) :
    Ran w (getDefaultSavePath env projectName w).2
      (!(getDefaultSavePath env projectName w).1.toBool) := by
  unfold getDefaultSavePath
  rcases hh : env.home with e | homeDir
  · exact Ran.op w _ Op.userHomeDir (some e) rfl rfl
  · have h1 : Ran w (w.log Op.userHomeDir true) false :=
      Ran.op w _ Op.userHomeDir none rfl rfl
    have hok : Ran (w.log Op.userHomeDir true) ((w.log Op.userHomeDir true).log Op.goos true)
        false := Ran.op _ _ Op.goos none rfl rfl
    have hbad : Ran (w.log Op.userHomeDir true) ((w.log Op.userHomeDir true).log Op.goos false)
        true := Ran.op _ _ Op.goos (some Err.eof) rfl rfl
    simp only
    split
    · exact h1.trans hok
    · split
      · exact h1.trans hok
      · split
        · exact h1.trans hok
        · exact h1.trans hbad

theorem askForSavePath_ran (env : Env) (projectName : String) (w : World) :
    Ran w (askForSavePath env projectName w).2
      (!(askForSavePath env projectName w).1.toBool) := by
  have h1 : Ran w (w.log Op.readString (readString '\n' env.stdin.data).2.isNone) false :=
    Ran.ignored w _ _ rfl (by simp [Event.fatal])
  unfold askForSavePath
  simp only
  split
  · exact h1.trans (getDefaultSavePath_ran env projectName _)
  · exact h1

theorem ensureDirectoryExists_ran (env : Env) (path : Path) (w : World) :
    Ran w (ensureDirectoryExists env path w).2 (ensureDirectoryExists env path w).1.isSome := by
  obtain ⟨b, hb⟩ := osStat_trace env path w
  have h1 : Ran w (osStat env path w).2 false :=
    Ran.ignored w _ _ hb (by simp [Event.fatal])
  unfold ensureDirectoryExists
  rcases hs : osStat env path w with ⟨e | n, w1⟩
  · rw [hs] at h1
    simp only
    split
    · have h2 := Ran.op w1 _ _ _ (osMkdirAll_trace env path 0o777 w1) rfl
      rcases hm : osMkdirAll env path 0o777 w1 with ⟨_ | e2, w2⟩
      · rw [hm] at h2; exact h1.trans h2
      · rw [hm] at h2; exact h1.trans h2
    · exact h1
  · rw [hs] at h1; exact h1

theorem cmdRun_ran (env : Env) (c : Cmd) (w : World) :
    Ran w (cmdRun env c w).2 (cmdRun env c w).1.isSome :=
  Ran.op w _ _ _ (cmdRun_trace env c w) rfl

theorem osRemoveAll_ran (env : Env) (p : Path) (w : World) :
    Ran w (osRemoveAll env p w).2 (osRemoveAll env p w).1.isSome :=
  Ran.op w _ _ _ (osRemoveAll_trace env p w) rfl

theorem copyEntry_ran (env : Env) (dest : Path) (r : List String) (isDir : Bool) (w : World) :
    Ran w (copyEntry env dest ("flutter_base" :: r) isDir none w).2
      (copyEntry env dest ("flutter_base" :: r) isDir none w).1.isSome := by
  simp only [copyEntry, filepathRel_base]
  cases isDir with
  | true => exact Ran.op w _ _ _ (osMkdirAll_trace env _ _ w) rfl
  | false =>
    simp only [Bool.false_eq_true, if_false, embedOpen]
    rcases hf : env.templateFS.find? ("flutter_base" :: r) with _ | src
    · exact Ran.op w _ (Op.embedOpen ("flutter_base" :: r)) (some Err.notExist) rfl rfl
    · have h1 : Ran w (w.log (Op.embedOpen ("flutter_base" :: r)) true) false :=
        Ran.op w _ (Op.embedOpen ("flutter_base" :: r)) none rfl rfl
      simp only
      have h2 := Ran.op _ _ _ _
        (osCreate_trace env (dest.join r) (w.log (Op.embedOpen ("flutter_base" :: r)) true)) rfl
      rcases hc : osCreate env (dest.join r) (w.log (Op.embedOpen ("flutter_base" :: r)) true)
        with ⟨_ | e, w2⟩
      · rw [hc] at h2
        simp only
        have h3 := Ran.op _ _ _ _ (ioCopy_trace env (dest.join r) src w2) rfl
        rcases hcp : ioCopy env (dest.join r) src w2 with ⟨_ | e, w3⟩
        · rw [hcp] at h3
          have h4 : Ran w3 (closeDst env (dest.join r) w3) false :=
            Ran.ignored _ _ _ rfl (by simp [Event.fatal])
          have h5 : Ran (closeDst env (dest.join r) w3)
              (closeSrc ("flutter_base" :: r) (closeDst env (dest.join r) w3)) false :=
            Ran.ignored _ _ _ rfl (by simp [Event.fatal])
          exact ((h1.trans h2).trans h3).trans (h4.trans h5)
        · rw [hcp] at h3
          exact (((h1.trans h2).trans h3).thenClose
            ⟨Op.close (dest.join r), !env.faultNow w3⟩ rfl rfl).thenClose
            ⟨Op.embedClose ("flutter_base" :: r), true⟩ rfl rfl
      · rw [hc] at h2
        exact (h1.trans h2).thenClose ⟨Op.embedClose ("flutter_base" :: r), true⟩ rfl rfl

theorem runVisits_ran (env : Env) (dest : Path) :
    ∀ (L : List (List String × Tree)) (w : World),
      (∀ x ∈ L, ∃ r, x.1 = "flutter_base" :: r) →
      Ran w (runVisits (copyEntry env dest) L w).2
        (runVisits (copyEntry env dest) L w).1.isSome := by
  intro L
  induction L with
  | nil => intro w _; exact Ran.refl w
  | cons x L ih =>
    intro w hL
    obtain ⟨r, hr⟩ := hL x (List.mem_cons_self _ _)
    have h1 := copyEntry_ran env dest r x.2.isDir w
    simp only [runVisits, hr]
    rcases hs : copyEntry env dest ("flutter_base" :: r) x.2.isDir none w with ⟨_ | e, w1⟩
    · rw [hs] at h1
      exact h1.trans (ih w1 (fun y hy => hL y (List.mem_cons_of_mem _ hy)))
    · rw [hs] at h1; exact h1

mutual
theorem tree_walk_name :
    ∀ (t : Tree) (name : List String) (x : List String × Tree), x ∈ t.walk name →
      ∃ r, x.1 = name ++ r
  | Tree.file d, name, x, hx => by
    simp only [Tree.walk, List.mem_singleton] at hx
    exact ⟨[], by rw [hx]; simp⟩
  | Tree.dir es, name, x, hx => by
    simp only [Tree.walk, List.mem_cons] at hx
    rcases hx with rfl | hx
    · exact ⟨[], by simp⟩
    · exact entries_walk_name es name x hx
theorem entries_walk_name :
    ∀ (es : Entries) (name : List String) (x : List String × Tree), x ∈ es.walk name →
      ∃ r, x.1 = name ++ r
  | Entries.nil, name, x, hx => by simp [Entries.walk] at hx
  | Entries.cons n t rest, name, x, hx => by
    simp only [Entries.walk, List.mem_append] at hx
    rcases hx with hx | hx
    · obtain ⟨r, hr⟩ := tree_walk_name t (name ++ [n]) x hx
      exact ⟨n :: r, by rw [hr]; simp⟩
    · exact entries_walk_name rest name x hx
end

theorem copyTemplateStructure_ran (env : Env) (dest : Path) (w : World) :
    Ran w (copyTemplateStructure env dest w).2 (copyTemplateStructure env dest w).1.isSome := by
  rcases hroot : env.templateFS.find? ["flutter_base"] with _ | t0
  · simp only [copyTemplateStructure, fsWalkDir, hroot, copyEntry]
    exact Ran.op w _ (Op.embedStat ["flutter_base"]) (some Err.notExist) rfl rfl
  · rw [copyTemplateStructure_eq env dest w t0 hroot]
    have h1 : Ran w (w.log (Op.embedStat ["flutter_base"]) true) false :=
      Ran.op w _ (Op.embedStat ["flutter_base"]) none rfl rfl
    refine h1.trans (runVisits_ran env dest _ _ ?_)
    intro x hx
    obtain ⟨r, hr⟩ := tree_walk_name t0 _ x hx
    exact ⟨r, by simpa using hr⟩

theorem mergePubspec_ran (env : Env) (dest : Path) (w : World) :
    Ran w (mergePubspec env dest w).2 (mergePubspec env dest w).1.isSome := by
  unfold mergePubspec embedReadFile
  rcases hf : env.templateFS.find? ["flutter_base", "pubspec.yaml"] with _ | t
  · exact Ran.op w _ (Op.embedReadFile _) (some Err.notExist) rfl rfl
  · cases t with
    | dir es => exact Ran.op w _ (Op.embedReadFile _) (some Err.isDir) rfl rfl
    | file data =>
      have h1 : Ran w (w.log (Op.embedReadFile ["flutter_base", "pubspec.yaml"]) true) false :=
        Ran.op w _ (Op.embedReadFile _) none rfl rfl
      simp only
      have h2 := Ran.op _ _ _ _ (osWriteFile_trace env (dest.join ["pubspec.yaml"]) data
        (w.log (Op.embedReadFile ["flutter_base", "pubspec.yaml"]) true)) rfl
      rcases hw : osWriteFile env (dest.join ["pubspec.yaml"]) data
        (w.log (Op.embedReadFile ["flutter_base", "pubspec.yaml"]) true) with ⟨_ | e, w2⟩
      · rw [hw] at h2; exact h1.trans h2
      · rw [hw] at h2; exact h1.trans h2

theorem runCmds_ran (env : Env) (dir : Path) :
    ∀ (cmds : List (List String)) (w : World),
      Ran w (runCmds env dir cmds w).2 (runCmds env dir cmds w).1.isSome := by
  intro cmds
  induction cmds with
  | nil => intro w; exact Ran.refl w
  | cons c cs ih =>
    intro w
    have h1 := cmdRun_ran env ⟨c, some dir⟩ w
    simp only [runCmds]
    rcases hr : cmdRun env ⟨c, some dir⟩ w with ⟨_ | e, w1⟩
    · rw [hr] at h1; exact h1.trans (ih w1)
    · rw [hr] at h1; exact h1

theorem mainFrom_ran (env : Env) (projectName : String) (w : World) :
    ((mainFrom env projectName w).code = 0 ∧ Ran w (mainFrom env projectName w).world false) ∨
    ((mainFrom env projectName w).code = 1 ∧ Ran w (mainFrom env projectName w).world true) := by
  unfold mainFrom
  have h1 := askForSavePath_ran env projectName w
  rcases ha : askForSavePath env projectName w with ⟨e | dest, w1⟩
  · rw [ha] at h1; exact Or.inr ⟨rfl, h1⟩
  rw [ha] at h1
  simp only
  have h2 := ensureDirectoryExists_ran env dest w1
  rcases hb : ensureDirectoryExists env dest w1 with ⟨_ | e, w2⟩
  swap
  · rw [hb] at h2; exact Or.inr ⟨rfl, h1.trans h2⟩
  rw [hb] at h2
  simp only
  have h3 := cmdRun_ran env ⟨["flutter", "create", dest.toString], none⟩ w2
  rcases hc : createFlutterProjectAtPath env dest w2 with ⟨_ | e, w3⟩
  swap
  · unfold createFlutterProjectAtPath at hc
    rw [hc] at h3; exact Or.inr ⟨rfl, (h1.trans h2).trans h3⟩
  unfold createFlutterProjectAtPath at hc
  rw [hc] at h3
  simp only
  have h4 := osRemoveAll_ran env (dest.join ["lib"]) w3
  rcases hd : osRemoveAll env (dest.join ["lib"]) w3 with ⟨_ | e, w4⟩
  swap
  · rw [hd] at h4; exact Or.inr ⟨rfl, ((h1.trans h2).trans h3).trans h4⟩
  rw [hd] at h4
  simp only
  have h5 := copyTemplateStructure_ran env dest w4
  rcases he : copyTemplateStructure env dest w4 with ⟨_ | e, w5⟩
  swap
  · rw [he] at h5; exact Or.inr ⟨rfl, (((h1.trans h2).trans h3).trans h4).trans h5⟩
  rw [he] at h5
  simp only
  have h6 := mergePubspec_ran env dest w5
  rcases hf : mergePubspec env dest w5 with ⟨_ | e, w6⟩
  swap
  · rw [hf] at h6; exact Or.inr ⟨rfl, ((((h1.trans h2).trans h3).trans h4).trans h5).trans h6⟩
  rw [hf] at h6
  simp only
  have h7 := runCmds_ran env dest gitCmds w6
  rcases hg : initGit env dest w6 with ⟨_ | e, w7⟩
  swap
  · unfold initGit at hg
    rw [hg] at h7
    exact Or.inr ⟨rfl, (((((h1.trans h2).trans h3).trans h4).trans h5).trans h6).trans h7⟩
  unfold initGit at hg
  rw [hg] at h7
  exact Or.inl ⟨rfl, (((((h1.trans h2).trans h3).trans h4).trans h5).trans h6).trans h7⟩

theorem main_ran (env : Env) (fs0 : FS) :
    ((main env fs0).code = 0 ∧ Halts (main env fs0).world.trace false) ∨
    ((main env fs0).code = 1 ∧ Halts (main env fs0).world.trace true) := by
  unfold main
  split
  · exact Or.inr ⟨rfl, [], ⟨Op.args, false⟩, [], rfl, by simp, rfl, by simp⟩
  · have h0 : Ran ⟨fs0, []⟩ (World.log ⟨fs0, []⟩ Op.args true) false :=
      Ran.op _ _ Op.args none rfl rfl
    rcases mainFrom_ran env (env.args.getD 1 "") (World.log ⟨fs0, []⟩ Op.args true)
      with ⟨hc, hr⟩ | ⟨hc, hr⟩
    · obtain ⟨evs, ht, hh⟩ := h0.trans hr
      simp only [List.nil_append] at ht
      rw [ht]
      exact Or.inl ⟨hc, hh⟩
    · obtain ⟨evs, ht, hh⟩ := h0.trans hr
      simp only [List.nil_append] at ht
      rw [ht]
      exact Or.inr ⟨hc, hh⟩

/-- The position of the failure that stopped a run is determined. -/
theorem fatal_split_unique (pre pre' post post' : List Event) (e e' : Event)
    (h : pre ++ e :: post = pre' ++ e' :: post') (he : e.fatal = true)
    (hpre' : ∀ x ∈ pre', x.fatal = false) (hpost' : ∀ x ∈ post', x.fatal = false) :
    post = post' := by
  induction pre generalizing pre' with
  | nil =>
    cases pre' with
    | nil =>
      simp only [List.nil_append, List.cons.injEq] at h
      exact h.2
    | cons a t =>
      simp only [List.nil_append, List.cons_append, List.cons.injEq] at h
      have := hpre' a (List.mem_cons_self _ _)
      rw [← h.1, he] at this; cases this
  | cons a t ih =>
    cases pre' with
    | nil =>
      simp only [List.nil_append, List.cons_append, List.cons.injEq] at h
      have hmem : e ∈ post' := by rw [← h.2]; simp
      have := hpost' e hmem
      rw [he] at this; cases this
    | cons a' t' =>
      simp only [List.cons_append, List.cons.injEq] at h
      exact ih t' h.2 (fun x hx => hpre' x (List.mem_cons_of_mem _ hx))

/-- Claim C6, amended.  Call a failure fatal when it is the failure of an
operation other than the read of the prompt answer, the existence check of the
destination and the deferred closes of the overlay.  In every run of `main`
the exit code is 0 or 1; it is 0 exactly when no fatal failure occurred and 1
exactly when one did, so a failed read of the prompt or a failed close does
not stop the run: when nothing else fails the run exits with code 0.  When a
fatal failure occurs, the run ends with exit code 1 and performs nothing after
it but the deferred closes of the files the failing overlay step had open. -/
theorem failures_are_fatal (env : Env) (fs0 : FS) :
    ((main env fs0).code = 0 ∨ (main env fs0).code = 1) ∧
    ((main env fs0).code = 0 ↔ ∀ e ∈ (main env fs0).world.trace, e.fatal = false) ∧
    ((main env fs0).code = 1 ↔ ∃ e ∈ (main env fs0).world.trace, e.fatal = true) ∧
    (∀ pre e post, (main env fs0).world.trace = pre ++ e :: post → e.fatal = true →
      (main env fs0).code = 1 ∧ ∀ x ∈ post, x.isClose = true) := by
  rcases main_ran env fs0 with ⟨hc, hh⟩ | ⟨hc, hh⟩
  · refine ⟨Or.inl hc, ⟨fun _ => hh, fun _ => hc⟩, ⟨?_, ?_⟩, ?_⟩
    · intro h1; rw [hc] at h1; cases h1
    · rintro ⟨e, he, hf⟩
      have := hh e he
      rw [hf] at this; cases this
    intro pre e post ht he
    have := hh e (by rw [ht]; simp)
    rw [he] at this; cases this
  · obtain ⟨pre', e', post', ht', hpre', he', hpost'⟩ := hh
    refine ⟨Or.inr hc, ⟨?_, ?_⟩, ⟨fun _ => ⟨e', by rw [ht']; simp, he'⟩, fun _ => hc⟩, ?_⟩
    · intro h0; rw [hc] at h0; cases h0
    · intro hall
      have := hall e' (by rw [ht']; simp)
      rw [he'] at this; cases this
    · intro pre e post ht he
      refine ⟨hc, ?_⟩
      rw [ht'] at ht
      have := fatal_split_unique pre pre' post post' e e' ht.symm he hpre'
        (fun x hx => fatal_of_isClose x (hpost' x hx))
      rw [this]; exact hpost'

/-- Claim C6 as stated fails.  In the first run reading the prompt answer
fails (the input is closed) and the close of a copied file fails, and the run
goes on to the end and exits with code 0.  In the second run the copy of a
template file fails and the program still performs two operations after it,
the deferred closes, before it exits with code 1.  In the third run the
existence check of the destination fails for an outside reason and the
program goes on to invoke the generator. -/
theorem ignored_failures :
    ((⟨Op.readString, false⟩ : Event) ∈ (main envEOF sampleFS).world.trace ∧
      (⟨Op.close ⟨true, ["home", "u", "Desktop", "app", "lib", "main.dart"]⟩, false⟩ : Event) ∈
        (main envEOF sampleFS).world.trace ∧
      (main envEOF sampleFS).code = 0) ∧
    ((main envCopyFails sampleFS).world.trace.drop 11 =
        [⟨Op.copy ⟨true, ["tmp", "app", "lib", "main.dart"]⟩, false⟩,
         ⟨Op.close ⟨true, ["tmp", "app", "lib", "main.dart"]⟩, true⟩,
         ⟨Op.embedClose ["flutter_base", "lib", "main.dart"], true⟩] ∧
      (main envCopyFails sampleFS).code = 1) ∧
    (main envStatDenied sampleFS).world.trace.drop 2 =
      [⟨Op.stat sampleDest, false⟩,
       ⟨Op.run ⟨["flutter", "create", "/tmp/app"], none⟩, false⟩] := by
  decide

/-! ## Before the generator -/

theorem getDefaultSavePath_ops (env : Env) (projectName : String) (w : World) :
    ∃ evs, (getDefaultSavePath env projectName w).2.trace = w.trace ++ evs ∧
      ∀ e ∈ evs, e.op = Op.userHomeDir ∨ e.op = Op.goos := by
  unfold getDefaultSavePath
  rcases env.home with e | homeDir
  · exact ⟨[⟨Op.userHomeDir, false⟩], rfl, by simp⟩
  · simp only
    split
    · exact ⟨[⟨Op.userHomeDir, true⟩, ⟨Op.goos, true⟩], by simp [World.log], by simp⟩
    · split
      · exact ⟨[⟨Op.userHomeDir, true⟩, ⟨Op.goos, true⟩], by simp [World.log], by simp⟩
      · split
        · exact ⟨[⟨Op.userHomeDir, true⟩, ⟨Op.goos, true⟩], by simp [World.log], by simp⟩
        · exact ⟨[⟨Op.userHomeDir, true⟩, ⟨Op.goos, false⟩], by simp [World.log], by simp⟩

theorem askForSavePath_ops (env : Env) (projectName : String) (w : World) :
    ∃ evs, (askForSavePath env projectName w).2.trace = w.trace ++ evs ∧
      ∀ e ∈ evs, e.op = Op.readString ∨ e.op = Op.userHomeDir ∨ e.op = Op.goos := by
  unfold askForSavePath
  simp only
  split
  · obtain ⟨evs, h1, h2⟩ := getDefaultSavePath_ops env projectName
      (w.log Op.readString (readString '\n' env.stdin.data).2.isNone)
    refine ⟨⟨Op.readString, (readString '\n' env.stdin.data).2.isNone⟩ :: evs, ?_, ?_⟩
    · rw [h1]; simp [World.log]
    · intro e he
      rcases List.mem_cons.1 he with rfl | he
      · exact Or.inl rfl
      · exact Or.inr (h2 e he)
  · exact ⟨[⟨Op.readString, (readString '\n' env.stdin.data).2.isNone⟩], rfl, by simp⟩

theorem ensureDirectoryExists_ops (env : Env) (path : Path) (w : World) :
    ∃ evs, (ensureDirectoryExists env path w).2.trace = w.trace ++ evs ∧
      ∀ e ∈ evs, e.op = Op.stat path ∨ e.op = Op.mkdirAll path 0o777 := by
  obtain ⟨b, hb⟩ := osStat_trace env path w
  unfold ensureDirectoryExists
  rcases hs : osStat env path w with ⟨e | n, w1⟩
  · rw [hs] at hb
    simp only at hb ⊢
    split
    · have hm := osMkdirAll_trace env path 0o777 w1
      rcases hmk : osMkdirAll env path 0o777 w1 with ⟨_ | e2, w2⟩
      · rw [hmk] at hm
        exact ⟨[⟨Op.stat path, b⟩, ⟨Op.mkdirAll path 0o777, true⟩],
          by simp only at hm ⊢; rw [hm, hb]; simp, by simp⟩
      · rw [hmk] at hm
        exact ⟨[⟨Op.stat path, b⟩, ⟨Op.mkdirAll path 0o777, false⟩],
          by simp only at hm ⊢; rw [hm, hb]; simp, by simp⟩
    · exact ⟨[⟨Op.stat path, b⟩], hb, by simp⟩
  · rw [hs] at hb
    exact ⟨[⟨Op.stat path, b⟩], hb, by simp⟩

/-- Claim C7.  Scaffold failure stops the pipeline: in a run of `main` that
reaches the generator (an argument was given, the save path was resolved to
`savePath`, `ensureDirectoryExists` returned no error) and in which running
`flutter create savePath` returns an error, the exit code is 1, the failed
generator run is the last operation, the file system is left as the generator
left it (the `lib` folder is not removed, no template file or manifest is
written, no git command runs), and every operation before the generator is one
of the input resolution or of the preparation of the destination. -/
theorem scaffold_failure_stops (env : Env) (fs0 : FS) (savePath : Path) (w1 w2 : World)
    (err : Err)
    (hargs : 2 ≤ env.args.length)
    (hask : askForSavePath env (env.args.getD 1 "") (World.log ⟨fs0, []⟩ Op.args true) =
      (Except.ok savePath, w1))
    (hens : ensureDirectoryExists env savePath w1 = (none, w2))
    (hgen : (env.run ⟨["flutter", "create", savePath.toString], none⟩ w2.fs).1 = some err) :
    (main env fs0).code = 1 ∧
    (main env fs0).world.fs =
      (env.run ⟨["flutter", "create", savePath.toString], none⟩ w2.fs).2 ∧
    (main env fs0).world.trace =
      w2.trace ++ [⟨Op.run ⟨["flutter", "create", savePath.toString], none⟩, false⟩] ∧
    ∀ e ∈ w2.trace, e.op = Op.args ∨ e.op = Op.readString ∨ e.op = Op.userHomeDir ∨
      e.op = Op.goos ∨ e.op = Op.stat savePath ∨ e.op = Op.mkdirAll savePath 0o777 := by
  have hlt : ¬ env.args.length < 2 := by omega
  have hcreate : createFlutterProjectAtPath env savePath w2 =
      (some err, (cmdRun env ⟨["flutter", "create", savePath.toString], none⟩ w2).2) := by
    unfold createFlutterProjectAtPath
    apply Prod.ext
    · exact hgen
    · rfl
  have hmain : main env fs0 =
      ⟨1, (cmdRun env ⟨["flutter", "create", savePath.toString], none⟩ w2).2⟩ := by
    unfold main
    rw [if_neg hlt]
    unfold mainFrom
    rw [hask]
    simp only
    rw [hens]
    simp only
    rw [hcreate]
  refine ⟨by rw [hmain], by rw [hmain]; rfl, ?_, ?_⟩
  · rw [hmain]
    simp only [cmdRun, hgen, Option.isNone_some]
  · obtain ⟨a, ha, hao⟩ := askForSavePath_ops env (env.args.getD 1 "")
      (World.log ⟨fs0, []⟩ Op.args true)
    obtain ⟨b, hb, hbo⟩ := ensureDirectoryExists_ops env savePath w1
    rw [hask] at ha
    rw [hens] at hb
    simp only at ha hb
    intro e he
    rw [hb, ha] at he
    simp only [World.log, List.nil_append, List.mem_append, List.mem_singleton,
      List.mem_cons, List.not_mem_nil, or_false] at he
    rcases he with (rfl | he) | he
    · exact Or.inl rfl
    · rcases hao e he with h | h | h
      · exact Or.inr (Or.inl h)
      · exact Or.inr (Or.inr (Or.inl h))
      · exact Or.inr (Or.inr (Or.inr (Or.inl h)))
    · rcases hbo e he with h | h
      · exact Or.inr (Or.inr (Or.inr (Or.inr (Or.inl h))))
      · exact Or.inr (Or.inr (Or.inr (Or.inr (Or.inr h))))

/-! ## The prompt -/

theorem readString_fst (d : Char) (s : List Char) :
    (readString d s).1 = s.takeWhile (fun c => c != d) ∨
    (readString d s).1 = s.takeWhile (fun c => c != d) ++ [d] := by
  induction s with
  | nil => left; rfl
  | cons c cs ih =>
    by_cases h : c = d
    · right; simp [readString, h]
    · rcases ih with ih | ih
      · left; simp [readString, h, ih]
      · right; simp [readString, h, ih]

theorem dropWhile_append_of_all {α} (p : α → Bool) (l m : List α) (h : ∀ x ∈ l, p x = true) :
    (l ++ m).dropWhile p = m.dropWhile p := by
  induction l with
  | nil => rfl
  | cons a l ih =>
    have ha := h a (by simp)
    simp [List.dropWhile, ha]
    exact ih (fun x hx => h x (by simp [hx]))

theorem dropWhile_append_of_not_all {α} (p : α → Bool) (l m : List α) (h : ∃ x ∈ l, p x = false) :
    (l ++ m).dropWhile p = l.dropWhile p ++ m := by
  induction l with
  | nil => simp at h
  | cons a l ih =>
    by_cases ha : p a = true
    · simp only [List.cons_append, List.dropWhile, ha]
      apply ih
      obtain ⟨x, hx, hpx⟩ := h
      rcases List.mem_cons.1 hx with rfl | hx
      · rw [ha] at hpx; cases hpx
      · exact ⟨x, hx, hpx⟩
    · simp only [Bool.not_eq_true] at ha
      simp [List.dropWhile, ha]

theorem trimSpace_append_space (l : List Char) (c : Char) (hn : isSpace c = true) :
    trimSpace (String.mk (l ++ [c])) = trimSpace (String.mk l) := by
  unfold trimSpace
  congr 2
  by_cases h : ∀ x ∈ l, isSpace x = true
  · have h1 : (l ++ [c]).dropWhile isSpace = [] := by
      rw [dropWhile_append_of_all _ _ _ h]; simp [List.dropWhile, hn]
    have h2 : l.dropWhile isSpace = [] := by
      have := dropWhile_append_of_all isSpace l [] h
      simpa using this
    show ((l ++ [c]).dropWhile isSpace).reverse.dropWhile isSpace =
      (l.dropWhile isSpace).reverse.dropWhile isSpace
    rw [h1, h2]
  · have h' : ∃ x ∈ l, isSpace x = false := by
      by_contra hc
      apply h
      intro x hx
      by_contra hx2
      exact hc ⟨x, hx, by simpa using hx2⟩
    show ((l ++ [c]).dropWhile isSpace).reverse.dropWhile isSpace =
      (l.dropWhile isSpace).reverse.dropWhile isSpace
    rw [dropWhile_append_of_not_all _ _ _ h']
    simp [List.dropWhile, hn]

theorem dropCR_cases : ∀ l : List Char, dropCR l = l ∨ l = dropCR l ++ ['\r']
  | [] => Or.inl rfl
  | [c] => by
    by_cases h : c = '\r'
    · right; simp [dropCR, h]
    · left; simp [dropCR, h]
  | c :: d :: cs => by
    rcases dropCR_cases (d :: cs) with h | h
    · left; simp only [dropCR, h]
    · right
      simp only [dropCR, List.cons_append, List.cons.injEq, true_and]
      exact h

theorem trimSpace_dropCR (l : List Char) :
    trimSpace (String.mk (dropCR l)) = trimSpace (String.mk l) := by
  rcases dropCR_cases l with h | h
  · rw [h]
  · conv_rhs => rw [h]
    rw [trimSpace_append_space _ _ (by decide)]

theorem trimSpace_readString (stdin : String) :
    trimSpace (String.mk (readString '\n' stdin.data).1) = trimSpace (promptAnswer stdin) := by
  unfold promptAnswer
  rw [trimSpace_dropCR]
  rcases readString_fst '\n' stdin.data with h | h
  · rw [h]
  · rw [h, trimSpace_append_space _ _ (by decide)]

/-- Claim C4.  Default save path: when the home directory lookup succeeds
and the prompt answer is empty or a single dot, leading and trailing white
space apart (so also when it is exactly empty or exactly a dot, whatever the
line terminator), the resolved path is `Join(home, "Desktop", projectName)` on
each of `windows`, `darwin` and `linux`, the same expression on all three, and
on every other platform identifier the resolution fails with the
unsupported-OS error and returns no path. -/
theorem default_save_path (env : Env) (projectName home : String) (w : World)
    (hhome : env.home = Except.ok home)
    (hans : trimSpace (promptAnswer env.stdin) = "" ∨
      trimSpace (promptAnswer env.stdin) = ".") :
    (env.goos ∈ ["windows", "darwin", "linux"] →
      (askForSavePath env projectName w).1 =
        Except.ok (filepathJoin [home, "Desktop", projectName])) ∧
    (env.goos ∉ ["windows", "darwin", "linux"] →
      (askForSavePath env projectName w).1 = Except.error (Err.unsupportedOS env.goos)) := by
  have ht : trimSpace (String.mk (readString '\n' env.stdin.data).1) = "" ∨
      trimSpace (String.mk (readString '\n' env.stdin.data).1) = "." := by
    rw [trimSpace_readString]
    exact hans
  constructor
  · intro hg
    simp only [askForSavePath, if_pos ht, getDefaultSavePath, hhome]
    simp only [List.mem_cons, List.mem_singleton, List.not_mem_nil, or_false] at hg
    rcases hg with h | h | h <;> simp [h]
  · intro hg
    simp only [askForSavePath, if_pos ht, getDefaultSavePath, hhome]
    simp only [List.mem_cons, List.mem_singleton, List.not_mem_nil, or_false, not_or] at hg
    simp [hg.1, hg.2.1, hg.2.2]

/-- Claim C5, amended.  Custom save path: when the prompt answer, with its
leading and trailing white space removed, is neither empty nor a single dot,
`askForSavePath` succeeds and the resolved path is the trimmed answer joined
with the project name, on every platform; the file system is neither consulted
nor changed, and the only operation is the read of the prompt. -/
theorem custom_save_path (env : Env) (projectName : String) (w : World)
    (h1 : trimSpace (promptAnswer env.stdin) ≠ "")
    (h2 : trimSpace (promptAnswer env.stdin) ≠ ".") :
    (askForSavePath env projectName w).1 =
        Except.ok (filepathJoin [trimSpace (promptAnswer env.stdin), projectName]) ∧
    (askForSavePath env projectName w).2.fs = w.fs ∧
    (askForSavePath env projectName w).2.trace =
        w.trace ++ [⟨Op.readString, (readString '\n' env.stdin.data).2.isNone⟩] := by
  have ht := trimSpace_readString env.stdin
  have hn := not_or.2 ⟨h1, h2⟩
  simp only [askForSavePath, ht, if_neg hn, World.log, and_self]

/-- Claim C5 as stated fails: the answer ` x` is neither empty nor a dot, yet
the resolved path is `Join("x", "app")` and not `Join(" x", "app")`. -/
theorem trimmed_answer_is_joined :
    promptAnswer envBlank.stdin = " x" ∧ (" x" : String) ≠ "" ∧ (" x" : String) ≠ "." ∧
    (askForSavePath envBlank "app" ⟨sampleFS, []⟩).1 ≠ Except.ok (filepathJoin [" x", "app"]) ∧
    (askForSavePath envBlank "app" ⟨sampleFS, []⟩).1 = Except.ok (filepathJoin ["x", "app"]) := by
  refine ⟨by decide, by decide, by decide, ?_, ?_⟩
  · decide
  · decide

/-! ## The destination directory -/

/-- Claim C10 at its failing input: the destination `/tmp/app` is a regular
file.  `ensureDirectoryExists` returns no error after the existence check
alone, the path is still not a directory, and `main` goes on to invoke the
generator on it. -/
theorem regular_file_passes_for_directory :
    fsFileAtDest sampleDest = some (Node.file [0]) ∧
    (ensureDirectoryExists envGeneratorFails sampleDest ⟨fsFileAtDest, []⟩).1 = none ∧
    isDirAt (ensureDirectoryExists envGeneratorFails sampleDest ⟨fsFileAtDest, []⟩).2.fs
      sampleDest = false ∧
    (ensureDirectoryExists envGeneratorFails sampleDest ⟨fsFileAtDest, []⟩).2.trace =
      [⟨Op.stat sampleDest, true⟩] ∧
    (main envGeneratorFails fsFileAtDest).world.trace =
      [⟨Op.args, true⟩, ⟨Op.readString, true⟩, ⟨Op.stat sampleDest, true⟩,
       ⟨Op.run ⟨["flutter", "create", "/tmp/app"], none⟩, false⟩] := by
  decide

/-- Claim C9 at its failing input: the destination `/home/u/notes.txt/app`
does not exist and its parent is a regular file, so the existence check fails
with ENOTDIR and not with ENOENT.  `ensureDirectoryExists` returns no error
after the existence check alone, creates nothing, and `main` goes on to invoke
the generator on the missing path.  The same happens in the last run, where
the destination `/tmp/app` is missing below an existing directory and the
existence check fails for an outside reason. -/
theorem absent_destination_left_absent :
    ((askForSavePath envFileAnswer "app" ⟨fsNotes, []⟩).1 = Except.ok notesDest ∧
    fsNotes notesDest = none ∧
    statFS fsNotes notesDest = Except.error Err.notDir ∧
    (ensureDirectoryExists envFileAnswer notesDest ⟨fsNotes, []⟩).1 = none ∧
    (ensureDirectoryExists envFileAnswer notesDest ⟨fsNotes, []⟩).2.fs notesDest = none ∧
    (ensureDirectoryExists envFileAnswer notesDest ⟨fsNotes, []⟩).2.trace =
      [⟨Op.stat notesDest, false⟩] ∧
    (main envFileAnswer fsNotes).world.trace =
      [⟨Op.args, true⟩, ⟨Op.readString, true⟩, ⟨Op.stat notesDest, false⟩,
       ⟨Op.run ⟨["flutter", "create", "/home/u/notes.txt/app"], none⟩, false⟩]) ∧
    (sampleFS sampleDest = none ∧
      (main envStatDenied sampleFS).world.fs sampleDest = none ∧
      (main envStatDenied sampleFS).world.trace =
        [⟨Op.args, true⟩, ⟨Op.readString, true⟩, ⟨Op.stat sampleDest, false⟩,
         ⟨Op.run ⟨["flutter", "create", "/tmp/app"], none⟩, false⟩]) := by
  decide

/-- When the check reports that the path does not exist, success means it was
created, with the mode `os.ModePerm` asked for. -/
theorem ensureDirectoryExists_creates (env : Env) (path : Path) (w : World)
    (hnofault : env.faultNow w = false)
    (habsent : statFS w.fs path = Except.error Err.notExist)
    (hok : (ensureDirectoryExists env path w).1 = none) :
    (ensureDirectoryExists env path w).2.fs path = some (Node.dir 0o777) ∧
    (∀ q ∈ path.parents, w.fs q = none →
      (ensureDirectoryExists env path w).2.fs q = some (Node.dir 0o777)) ∧
    (∀ q n, w.fs q = some n → (ensureDirectoryExists env path w).2.fs q = some n) := by
  have hnone : w.fs path = none := by
    unfold statFS at habsent
    rcases h : w.fs path with _ | n
    · rfl
    · rw [h] at habsent; cases habsent
  have hstat : osStat env path w = (Except.error Err.notExist, w.log (Op.stat path) false) := by
    unfold osStat
    rw [hnofault]
    simp only [Bool.false_eq_true, if_false, habsent]
  unfold ensureDirectoryExists at hok ⊢
  rw [hstat] at hok ⊢
  simp only [if_true] at hok ⊢
  rcases hm : osMkdirAll env path 0o777 (w.log (Op.stat path) false) with ⟨_ | e, w2⟩
  · simp only
    obtain ⟨hfs, _⟩ := osMkdirAll_ok env path 0o777 _ w2 hm
    refine ⟨?_, ?_, ?_⟩
    · rw [hfs path]
      simp [World.log, hnone]
    · intro q hq hqn
      rw [hfs q]
      simp [World.log, hqn, hq]
    · intro q n hq
      rw [hfs q]
      simp [World.log, hq]
  · rw [hm] at hok; simp at hok

/-! ## The theorems at sample inputs -/

/-- The overlay theorem on the sample template. -/
theorem overlay_complete_witness :
    sampleEnv.templateFS.WF = true ∧
    (copyTemplateStructure sampleEnv sampleDest ⟨sampleFS, []⟩).1 = none ∧
    sampleEnv.templateFS.find? ["flutter_base", "lib", "main.dart"] = some (Tree.file [1, 2]) ∧
    (copyTemplateStructure sampleEnv sampleDest ⟨sampleFS, []⟩).2.fs
        (sampleDest.join ["lib", "main.dart"]) = some (Node.file [1, 2]) :=
  ⟨by decide, by decide, rfl,
    (overlay_complete sampleEnv sampleDest ⟨sampleFS, []⟩
      (copyTemplateStructure sampleEnv sampleDest ⟨sampleFS, []⟩).2 (by decide)
      (Prod.ext (by decide) rfl) ["lib", "main.dart"] [1, 2] rfl).1⟩

/-- The theorem on the source folder on the sample run, whose generator
leaves a file `lib/old.dart`. -/
theorem no_leftover_lib_witness :
    sampleEnv.templateFS.WF = true ∧ (main sampleEnv sampleFS).code = 0 ∧
    ∃ (dest : Path) (w1 w2 w3 w4 w5 w6 : World),
      askForSavePath sampleEnv (sampleEnv.args.getD 1 "") (World.log ⟨sampleFS, []⟩ Op.args true) =
        (Except.ok dest, w1) ∧
      ensureDirectoryExists sampleEnv dest w1 = (none, w2) ∧
      createFlutterProjectAtPath sampleEnv dest w2 = (none, w3) ∧
      osRemoveAll sampleEnv (dest.join ["lib"]) w3 = (none, w4) ∧
      (∀ q, q.under (dest.join ["lib"]) = true → w4.fs q = none) ∧
      copyTemplateStructure sampleEnv dest w4 = (none, w5) ∧
      mergePubspec sampleEnv dest w5 = (none, w6) ∧
      initGit sampleEnv dest w6 = (none, (main sampleEnv sampleFS).world) ∧
      (∀ q data, q.under (dest.join ["lib"]) = true → w6.fs q = some (Node.file data) →
        ∃ rel, q = dest.join ("lib" :: rel) ∧
          sampleEnv.templateFS.find? ("flutter_base" :: "lib" :: rel) =
            some (Tree.file data)) ∧
      (sampleEnv.templateFS.find? ["flutter_base", "lib"] = none →
        w6.fs (dest.join ["lib"]) = none) :=
  ⟨by decide, by decide, no_leftover_lib sampleEnv sampleFS (by decide) (by decide)⟩

/-- The theorem on the default path for the empty answer on `windows`, where
the line ends in a carriage return and a line feed. -/
theorem default_save_path_witness :
    envDefault.home = Except.ok "/home/u" ∧ promptAnswer envDefault.stdin = "" ∧
    trimSpace (promptAnswer envDefault.stdin) = "" ∧
    envDefault.goos ∈ ["windows", "darwin", "linux"] ∧
    (askForSavePath envDefault "app" ⟨sampleFS, []⟩).1 =
      Except.ok (filepathJoin ["/home/u", "Desktop", "app"]) :=
  ⟨rfl, by decide, by decide, by decide,
    (default_save_path envDefault "app" "/home/u" ⟨sampleFS, []⟩ rfl
      (Or.inl (by decide))).1 (by decide)⟩

/-- The theorem on the custom path for the answer `/tmp`. -/
theorem custom_save_path_witness :
    trimSpace (promptAnswer sampleEnv.stdin) ≠ "" ∧
    trimSpace (promptAnswer sampleEnv.stdin) ≠ "." ∧
    (askForSavePath sampleEnv "app" ⟨sampleFS, []⟩).1 =
      Except.ok (filepathJoin [trimSpace (promptAnswer sampleEnv.stdin), "app"]) :=
  ⟨by decide, by decide,
    (custom_save_path sampleEnv "app" ⟨sampleFS, []⟩ (by decide) (by decide)).1⟩

/-- The theorem on the failing generator on a run whose generator exits
with status 1. -/
theorem scaffold_failure_stops_witness :
    2 ≤ envGeneratorFails.args.length ∧
    (askForSavePath envGeneratorFails "app" (World.log ⟨sampleFS, []⟩ Op.args true)).1 =
      Except.ok sampleDest ∧
    (ensureDirectoryExists envGeneratorFails sampleDest
      (askForSavePath envGeneratorFails "app" (World.log ⟨sampleFS, []⟩ Op.args true)).2).1 =
      none ∧
    (main envGeneratorFails sampleFS).code = 1 :=
  ⟨by decide, by decide, by decide,
    (scaffold_failure_stops envGeneratorFails sampleFS sampleDest
      (askForSavePath envGeneratorFails "app" (World.log ⟨sampleFS, []⟩ Op.args true)).2
      (ensureDirectoryExists envGeneratorFails sampleDest
        (askForSavePath envGeneratorFails "app" (World.log ⟨sampleFS, []⟩ Op.args true)).2).2
      (Err.exitStatus 1) (by decide) (Prod.ext (by decide) rfl) (Prod.ext (by decide) rfl)
      (by decide)).1⟩

/-- The theorem on the repository bootstrap on a run whose `git add .`
fails: `git init` and `git add .` are run, the commit is not, and the error
returned is that of `git add .`. -/
theorem initGit_initial_segment_witness :
    (initGit envGitAddFails sampleDest ⟨sampleFS, []⟩).1 = some (Err.exitStatus 128) ∧
    (initGit envGitAddFails sampleDest ⟨sampleFS, []⟩).2.trace =
      [⟨Op.run ⟨["git", "init"], some sampleDest⟩, true⟩,
       ⟨Op.run ⟨["git", "add", "."], some sampleDest⟩, false⟩] ∧
    ∃ evs : List Event,
      (initGit envGitAddFails sampleDest ⟨sampleFS, []⟩).2.trace = [] ++ evs ∧
      evs.map Event.op =
        ([Op.run ⟨["git", "init"], some sampleDest⟩,
          Op.run ⟨["git", "add", "."], some sampleDest⟩,
          Op.run ⟨["git", "commit", "-m", "Initial commit: Flutter project structure"],
            some sampleDest⟩].take evs.length) ∧
      (∀ e ∈ evs.dropLast, e.ok = true) ∧
      ((initGit envGitAddFails sampleDest ⟨sampleFS, []⟩).1 = none ↔
        evs.length = 3 ∧ ∀ e ∈ evs, e.ok = true) :=
  ⟨by decide, by decide,
    (initGit_initial_segment envGitAddFails sampleDest ⟨sampleFS, []⟩).imp
      (fun _ h => ⟨h.1, h.2.1, h.2.2.1, h.2.2.2.1⟩)⟩

end FlutterCreator
